import Mathlib

/-!
Verification development for the YAMAHA DELTA-T ADPCM unit
(`src/3rdParty/ym/ym_delta_t.c`).

The C module is shallowly embedded below.  Machine integers are modelled as
`Nat` (for the `uint8_t`/`uint32_t` fields, with explicit `% 2^32` where a
32-bit wrap can occur and `% 256` at byte boundaries) and as `Int` (for the
`int32_t` fields `acc`, `prev_acc`, `adpcmd`, `adpcml`, `volume`; within the
ranges exercised by the proved statements these never overflow 32 bits).
C `/` on signed operands truncates towards zero, which is `Int.tdiv`.

The C struct `YM_DELTAT` mixes serializable state with host-installed
configuration (function pointers, chip constants).  The embedding splits it:
`YM_DELTAT_CFG` holds the host configuration and `YM_DELTAT` the mutable
state.  Host callbacks are modelled as presence flags plus an event trace;
the external-memory pointer `read_byte` is an `Option` so that a
dereference without a configured memory is a `none` (crash) outcome, exactly
mirroring which accesses the C code guards with a null check and which it
does not.  The two floating-point computations of the module (the
`delta * freqbase` playback-rate product and the volume rescale of `adpcml`)
are modelled as opaque host-supplied functions `stepOf` and `volRescale` in
the configuration, since their inputs are host constants.
-/

set_option maxRecDepth 8000

/-- 32-bit unsigned wraparound, applied wherever the C code stores into a
`uint32_t` field after arithmetic that can exceed 32 bits. -/
def u32 (n : Nat) : Nat := n % 4294967296

/-- Low byte of a C `int` argument, as produced by conversion to `uint8_t`
or by masking with `0xff`; C conversion of a negative `int` to `uint8_t` is
reduction mod 256, which is `Int.emod`. -/
def lowByte (v : Int) : Nat := (v.emod 256).toNat

/-- A byte read out of a host `uint8_t` array: the host function is an
arbitrary `Nat → Nat`, masked to a byte. -/
def mem8 (m : Nat → Nat) (a : Nat) : Nat := m a % 256

/-- `ym_deltat_decode_tableB1` (forecast-to-next-forecast deltas, rate *8). -/
def ym_deltat_decode_tableB1 : List Int :=
  [1, 3, 5, 7, 9, 11, 13, 15, -1, -3, -5, -7, -9, -11, -13, -15]

/-- `ym_deltat_decode_tableB2` (delta-to-next-delta multipliers, rate *64). -/
def ym_deltat_decode_tableB2 : List Int :=
  [57, 57, 57, 57, 77, 102, 128, 153, 57, 57, 57, 57, 77, 102, 128, 153]

/-- `dram_rightshift[4]` = `{3,0,0,0}`. -/
def dram_rightshift : List Nat := [3, 0, 0, 0]

/-- The `YM_DELTAT_Limit(val,max,min)` clamping macro. -/
def YM_DELTAT_Limit (val mx mn : Int) : Int :=
  if val > mx then mx else if val < mn then mn else val

/-- Host-installed configuration of a Delta-T unit: the function-pointer and
chip-constant fields of the C `YM_DELTAT` struct. -/
structure YM_DELTAT_CFG where
  /-- `output_pointer` selection shift `portshift` (8 on YM2610). -/
  portshift : Nat
  /-- `output_range` host constant (an `int`). -/
  output_range : Int
  /-- `read_byte` external-memory array; `none` models a host that did not
  configure external memory (a NULL pointer in C). -/
  read_byte : Option (Nat → Nat)
  /-- whether the `write_byte` callback is configured (non-NULL). -/
  write_byte : Bool
  /-- whether the `status_set_handler` callback is configured. -/
  status_set_handler : Bool
  /-- whether the `status_reset_handler` callback is configured. -/
  status_reset_handler : Bool
  /-- `status_change_BRDY_bit` (0 = not designated). -/
  status_change_BRDY_bit : Nat
  /-- `status_change_EOS_bit` (0 = not designated). -/
  status_change_EOS_bit : Nat
  /-- models `(uint32_t)((double)delta * freqbase)` as a function of `delta`;
  the result is wrapped to 32 bits at the store. -/
  stepOf : Nat → Nat
  /-- models `(int)((double)adpcml / (double)oldvol * (double)volume)` as a
  function of `(adpcml, oldvol, volume)`. -/
  volRescale : Int → Int → Int → Int

/-- Mutable state of one Delta-T unit: the serializable fields of the C
`YM_DELTAT` struct.  `end` is a Lean keyword, so the `end` field is `end_`;
the output pointer `pan` is represented by the selected index `panIdx`. -/
structure YM_DELTAT where
  /-- `reg[16]` raw register image (bytes). -/
  reg : List Nat
  portstate : Nat
  control2 : Nat
  memread : Nat
  now_data : Nat
  CPU_data : Nat
  DRAMportshift : Nat
  PCM_BSY : Nat
  start : Nat
  end_ : Nat
  limit : Nat
  now_addr : Nat
  now_step : Nat
  step : Nat
  delta : Nat
  acc : Int
  prev_acc : Int
  adpcmd : Int
  adpcml : Int
  volume : Int
  panIdx : Nat
deriving DecidableEq, Repr

/-- A zero-filled unit, standing for the C struct before first reset. -/
def YM_DELTAT.init : YM_DELTAT :=
  { reg := List.replicate 16 0, portstate := 0, control2 := 0, memread := 0,
    now_data := 0, CPU_data := 0, DRAMportshift := 0, PCM_BSY := 0,
    start := 0, end_ := 0, limit := 0, now_addr := 0, now_step := 0,
    step := 0, delta := 0, acc := 0, prev_acc := 0, adpcmd := 0,
    adpcml := 0, volume := 0, panIdx := 0 }

/-- Host-visible side effects of an operation: status-callback invocations,
external-memory write-callback invocations, and additions into the selected
host output accumulator (`*pan += adpcml`). -/
inductive Event where
  | statusSet (bit : Nat)
  | statusReset (bit : Nat)
  | memWrite (addr v : Nat)
  | addOut (idx : Nat) (v : Int)
deriving DecidableEq, Repr

/-- `if (status_set_handler && bit) (*status_set_handler)(chip, bit)`. -/
def emitSet (cfg : YM_DELTAT_CFG) (bit : Nat) : List Event :=
  if cfg.status_set_handler ∧ bit ≠ 0 then [Event.statusSet bit] else []

/-- `if (status_reset_handler && bit) (*status_reset_handler)(chip, bit)`. -/
def emitReset (cfg : YM_DELTAT_CFG) (bit : Nat) : List Event :=
  if cfg.status_reset_handler ∧ bit ≠ 0 then [Event.statusReset bit] else []

/-- One ADPCM decode update (`ym_delta_t.c` lines 482-490 and 539-547, the
text is identical in the two synthesis variants): given the 4-bit `data` and
the current `(acc, adpcmd)`, produce the clamped next pair.  The `acc`
update divides before the clamp with C truncating division. -/
def decodeUpdate (data : Nat) (acc adpcmd : Int) : Int × Int :=
  (YM_DELTAT_Limit (acc + Int.tdiv (ym_deltat_decode_tableB1.getD data 0 * adpcmd) 8)
      32767 (-32768),
   YM_DELTAT_Limit (Int.tdiv (adpcmd * ym_deltat_decode_tableB2.getD data 0) 64)
      24576 127)

/-- Cursor advance plus decode update shared by the tails of both synthesis
loops; `maskAddr` is `(1<<(24+1))-1` in the external-memory variant and no
mask (`2^32-1`, i.e. plain `uint32` truncation) in the CPU variant. -/
def decodeTail (maskAddr data : Nat) (s : YM_DELTAT) : YM_DELTAT :=
  let s1 := { s with now_addr := u32 (s.now_addr + 1) &&& maskAddr,
                     prev_acc := s.acc }
  let p := decodeUpdate data s1.acc s1.adpcmd
  { s1 with acc := p.1, adpcmd := p.2 }

/-- Nibble fetch + decode of `YM_DELTAT_synthesis_from_external_memory`
(lines 466-490): on an even cursor a byte is fetched through `read_byte`
with no NULL guard, so a missing memory is a crash (`none`). -/
def extNibble (cfg : YM_DELTAT_CFG) (s : YM_DELTAT) : Option YM_DELTAT :=
  if s.now_addr % 2 = 1 then
    some (decodeTail 33554431 (s.now_data &&& 15) s)
  else
    match cfg.read_byte with
    | none => none
    | some m =>
        let nd := mem8 m (s.now_addr >>> 1)
        some (decodeTail 33554431 (nd >>> 4) { s with now_data := nd })

/-- The `do { } while (--step)` body of external-memory synthesis
(lines 439-495), iterated a fixed number of whole steps.  The `Bool` result
is `true` when the end-of-sample branch executed `return`, skipping the
interpolator. -/
def extLoop (cfg : YM_DELTAT_CFG) : Nat → YM_DELTAT → Option (YM_DELTAT × List Event × Bool)
  | 0, s => some (s, [], false)
  | k + 1, s =>
    let s1 := if s.now_addr = u32 (2 * s.limit) then { s with now_addr := 0 } else s
    if s1.now_addr = u32 (2 * s1.end_) then
      if s1.portstate &&& 0x10 ≠ 0 then
        match extNibble cfg { s1 with now_addr := u32 (2 * s1.start), acc := 0,
                                      adpcmd := 127, prev_acc := 0 } with
        | none => none
        | some s2 => extLoop cfg k s2
      else
        some ({ s1 with PCM_BSY := 0, portstate := 0, adpcml := 0, prev_acc := 0 },
              emitSet cfg cfg.status_change_EOS_bit, true)
    else
      match extNibble cfg s1 with
      | none => none
      | some s2 => extLoop cfg k s2

/-- The ElSemi interpolator and volume scale (lines 500-502 / 555-557):
`adpcml = ((prev_acc*(2^16-now_step) + acc*now_step) >> 16) * volume`;
the shift of a signed value is an arithmetic shift, i.e. floor division. -/
def interpOut (s : YM_DELTAT) : YM_DELTAT :=
  { s with adpcml :=
      Int.fdiv (s.prev_acc * ((65536 : Int) - (s.now_step : Int))
                 + s.acc * (s.now_step : Int)) 65536 * s.volume }

/-- `YM_DELTAT_synthesis_from_external_memory`. -/
def YM_DELTAT_synthesis_from_external_memory (cfg : YM_DELTAT_CFG) (s : YM_DELTAT) :
    Option (YM_DELTAT × List Event) :=
  let ns := u32 (s.now_step + s.step)
  if 65536 ≤ ns then
    match extLoop cfg (ns >>> 16) { s with now_step := ns &&& 65535 } with
    | none => none
    | some (s2, evs, early) =>
      if early then some (s2, evs)
      else
        let s3 := interpOut s2
        some (s3, evs ++ [Event.addOut s3.panIdx s3.adpcml])
  else
    let s3 := interpOut { s with now_step := ns }
    some (s3, [Event.addOut s3.panIdx s3.adpcml])

/-- The `do { } while (--step)` body of CPU-memory synthesis
(lines 518-550): consuming the low nibble of a byte pulls `CPU_data` into
`now_data` and asserts BRDY; the cursor increment has no 25-bit mask. -/
def cpuLoop (cfg : YM_DELTAT_CFG) : Nat → YM_DELTAT → YM_DELTAT × List Event
  | 0, s => (s, [])
  | k + 1, s =>
    let t : Nat × YM_DELTAT × List Event :=
      if s.now_addr % 2 = 1 then
        (s.now_data &&& 15, { s with now_data := s.CPU_data },
         emitSet cfg cfg.status_change_BRDY_bit)
      else
        (s.now_data >>> 4, s, [])
    let r := cpuLoop cfg k (decodeTail 4294967295 t.1 t.2.1)
    (r.1, t.2.2 ++ r.2)

/-- `YM_DELTAT_synthesis_from_CPU_memory`. -/
def YM_DELTAT_synthesis_from_CPU_memory (cfg : YM_DELTAT_CFG) (s : YM_DELTAT) :
    YM_DELTAT × List Event :=
  let ns := u32 (s.now_step + s.step)
  if 65536 ≤ ns then
    let r := cpuLoop cfg (ns >>> 16) { s with now_step := ns &&& 65535 }
    let s3 := interpOut r.1
    (s3, r.2 ++ [Event.addOut s3.panIdx s3.adpcml])
  else
    let s3 := interpOut { s with now_step := ns }
    (s3, [Event.addOut s3.panIdx s3.adpcml])

/-- `ADPCMB_CALC`: decode-tick dispatch on `portstate & 0xe0`. -/
def ADPCMB_CALC (cfg : YM_DELTAT_CFG) (s : YM_DELTAT) : Option (YM_DELTAT × List Event) :=
  if s.portstate &&& 0xe0 = 0xa0 then
    YM_DELTAT_synthesis_from_external_memory cfg s
  else if s.portstate &&& 0xe0 = 0x80 then
    some (YM_DELTAT_synthesis_from_CPU_memory cfg s)
  else
    some (s, [])

/-- `ADPCMB_read`: the data-register read path.  In external-memory read
mode the real-data branch dereferences `read_byte` with no NULL guard. -/
def ADPCMB_read (cfg : YM_DELTAT_CFG) (s : YM_DELTAT) :
    Option (Nat × YM_DELTAT × List Event) :=
  if s.portstate &&& 0xe0 = 0x20 then
    if s.memread ≠ 0 then
      some (0, { s with now_addr := u32 (2 * s.start), memread := s.memread - 1 }, [])
    else if s.now_addr ≠ u32 (2 * s.end_) then
      match cfg.read_byte with
      | none => none
      | some m =>
          some (mem8 m (s.now_addr >>> 1),
                { s with now_addr := u32 (s.now_addr + 2) },
                emitReset cfg cfg.status_change_BRDY_bit ++
                emitSet cfg cfg.status_change_BRDY_bit)
    else
      some (0, s, emitSet cfg cfg.status_change_EOS_bit)
  else
    some (0, s, [])

/-- Derived start address: `(reg[3]*0x100 | reg[2]) << shift` into `uint32`. -/
def dStart (regs : List Nat) (sh : Nat) : Nat :=
  u32 ((regs.getD 3 0 * 256 ||| regs.getD 2 0) <<< sh)

/-- Derived (inclusive) end address: `((reg[5]*0x100 | reg[4]) << shift)`
followed by `end += (1 << shift) - 1`, both `uint32` stores. -/
def dEnd (regs : List Nat) (sh : Nat) : Nat :=
  u32 (u32 ((regs.getD 5 0 * 256 ||| regs.getD 4 0) <<< sh) + ((1 <<< sh) - 1))

/-- Derived limit address: `(reg[0xd]*0x100 | reg[0xc]) << shift`. -/
def dLimit (regs : List Nat) (sh : Nat) : Nat :=
  u32 ((regs.getD 13 0 * 256 ||| regs.getD 12 0) <<< sh)

/-- Derived DELTA-N value `reg[0xa]*0x100 | reg[0x9]`. -/
def dDelta (regs : List Nat) : Nat := regs.getD 10 0 * 256 ||| regs.getD 9 0

/-- Derived volume `(v & 0xff) * (output_range / 256) / YM_DELTAT_DECODE_RANGE`
with C truncating division. -/
def dVol (cfg : YM_DELTAT_CFG) (lv : Nat) : Int :=
  Int.tdiv ((lv : Int) * Int.tdiv cfg.output_range 256) 32768

/-- Register 0 write (control): `v |= 0x20; v &= ~0x40` (YM2610 emulation
mode), `portstate = v & 0xf1`, then the START / memory-select / RESET
blocks. -/
def writeReg0 (cfg : YM_DELTAT_CFG) (s : YM_DELTAT) (lv : Nat) : YM_DELTAT × List Event :=
  let pv := ((lv ||| 0x20) &&& 0xbf) &&& 0xf1
  let s1 := { s with portstate := pv }
  let s2 := if pv &&& 0x80 ≠ 0 then
      { s1 with PCM_BSY := 1, now_step := 0, acc := 0, prev_acc := 0,
                adpcml := 0, adpcmd := 127, now_data := 0 }
    else s1
  let s3 := if pv &&& 0x20 ≠ 0 then
      { s2 with now_addr := u32 (2 * s2.start), memread := 2 }
    else
      { s2 with now_addr := 0 }
  if pv &&& 0x01 ≠ 0 then
    ({ s3 with portstate := 0, PCM_BSY := 0 },
     emitSet cfg cfg.status_change_BRDY_bit)
  else (s3, [])

/-- Register 1 write (mode/pan): `v |= 0x01` (YM2610 always-ROM), pan select,
and the memory-type change branch that refreshes the derived addresses when
the DRAM shift actually changes. -/
def writeReg1 (cfg : YM_DELTAT_CFG) (s : YM_DELTAT) (lv : Nat) : YM_DELTAT × List Event :=
  let v1 := lv ||| 0x01
  let s1 := { s with panIdx := (v1 >>> 6) &&& 3 }
  let s2 :=
    if s1.control2 &&& 3 ≠ v1 &&& 3 then
      if s1.DRAMportshift ≠ dram_rightshift.getD (v1 &&& 3) 0 then
        let drs := dram_rightshift.getD (v1 &&& 3) 0
        let sh := cfg.portshift - drs
        { s1 with DRAMportshift := drs, start := dStart s1.reg sh,
                  end_ := dEnd s1.reg sh, limit := dLimit s1.reg sh }
      else s1
    else s1
  ({ s2 with control2 := v1 }, [])

/-- Register 8 write (ADPCM data): external-memory write mode and
CPU-synthesis latch mode; any other mode only stores the register. -/
def writeReg8 (cfg : YM_DELTAT_CFG) (s : YM_DELTAT) (lv : Nat) : YM_DELTAT × List Event :=
  if s.portstate &&& 0xe0 = 0x60 then
    let s1 := if s.memread ≠ 0 then
        { s with now_addr := u32 (2 * s.start), memread := 0 }
      else s
    if s1.now_addr ≠ u32 (2 * s1.end_) then
      ({ s1 with now_addr := u32 (s1.now_addr + 2) },
       (if cfg.write_byte then [Event.memWrite (s1.now_addr >>> 1) lv] else []) ++
         emitReset cfg cfg.status_change_BRDY_bit ++
         emitSet cfg cfg.status_change_BRDY_bit)
    else
      (s1, emitSet cfg cfg.status_change_EOS_bit)
  else if s.portstate &&& 0xe0 = 0x80 then
    ({ s with CPU_data := lv }, emitReset cfg cfg.status_change_BRDY_bit)
  else
    (s, [])

/-- Register 0xb write (output level): recompute `volume` and, when the old
volume was nonzero, rescale the held `adpcml` proportionally. -/
def writeRegB (cfg : YM_DELTAT_CFG) (s : YM_DELTAT) (lv : Nat) : YM_DELTAT × List Event :=
  let nv := dVol cfg lv
  if s.volume ≠ 0 then
    ({ s with volume := nv, adpcml := cfg.volRescale s.adpcml s.volume nv }, [])
  else
    ({ s with volume := nv }, [])

/-- The `switch (r)` of `ADPCMB_write`, after the unconditional
`reg[r] = v` store; `rn < 16` and `lv` is the low byte of the written
value. -/
def writeCases (cfg : YM_DELTAT_CFG) (s : YM_DELTAT) (rn lv : Nat) : YM_DELTAT × List Event :=
  if rn = 0 then writeReg0 cfg s lv
  else if rn = 1 then writeReg1 cfg s lv
  else if rn = 2 ∨ rn = 3 then
    ({ s with start := dStart s.reg (cfg.portshift - s.DRAMportshift) }, [])
  else if rn = 4 ∨ rn = 5 then
    ({ s with end_ := dEnd s.reg (cfg.portshift - s.DRAMportshift) }, [])
  else if rn = 8 then writeReg8 cfg s lv
  else if rn = 9 ∨ rn = 10 then
    let d := dDelta s.reg
    ({ s with delta := d, step := u32 (cfg.stepOf d) }, [])
  else if rn = 11 then writeRegB cfg s lv
  else if rn = 12 ∨ rn = 13 then
    ({ s with limit := dLimit s.reg (cfg.portshift - s.DRAMportshift) }, [])
  else (s, [])

/-- `ADPCMB_write(adpcmb, r, v)`: indices `>= 0x10` are rejected before the
register store; a negative index reaches `reg[r] = v`, an out-of-bounds
store, modelled as the `none` (undefined behaviour) outcome. -/
def ADPCMB_write (cfg : YM_DELTAT_CFG) (s : YM_DELTAT) (r v : Int) :
    Option (YM_DELTAT × List Event) :=
  if 16 ≤ r then some (s, [])
  else if r < 0 then none
  else
    some (writeCases cfg { s with reg := s.reg.set r.toNat (lowByte v) } r.toNat (lowByte v))

/-- `ADPCMB_reset(panidx, adpcmb)`: bring the unit to idle and assert BRDY.
Fields the C function does not touch (`reg`, `memread`, `now_data`,
`CPU_data`, `PCM_BSY`, `delta`) are left unchanged. -/
def ADPCMB_reset (cfg : YM_DELTAT_CFG) (panidx : Nat) (s : YM_DELTAT) :
    YM_DELTAT × List Event :=
  ({ s with now_addr := 0, now_step := 0, step := 0, start := 0, end_ := 0,
            limit := 4294967295, volume := 0, panIdx := panidx, acc := 0,
            prev_acc := 0, adpcmd := 127, adpcml := 0, portstate := 0x20,
            control2 := 0x01,
            DRAMportshift := dram_rightshift.getD (0x01 &&& 3) 0 },
   emitSet cfg cfg.status_change_BRDY_bit)

/-- The `for (r = 1; r < 16; r++) ADPCMB_write(...)` replay of
`ADPCMB_postload`, by remaining count and current index. -/
def postloadReplay (cfg : YM_DELTAT_CFG) (regs : List Nat) :
    Nat → Nat → YM_DELTAT → Option (YM_DELTAT × List Event)
  | 0, _, s => some (s, [])
  | k + 1, idx, s =>
    match ADPCMB_write cfg s (idx : Int) ((regs.getD idx 0 % 256 : Nat) : Int) with
    | none => none
    | some (s1, e1) =>
      match postloadReplay cfg regs k (idx + 1) s1 with
      | none => none
      | some (s2, e2) => some (s2, e1 ++ e2)

/-- `ADPCMB_postload`: zero `volume`, replay registers 1..15 through the
write path, restore `reg[0]` directly, then fetch `now_data` from the
current cursor through the unguarded `read_byte`. -/
def ADPCMB_postload (cfg : YM_DELTAT_CFG) (s : YM_DELTAT) (regs : List Nat) :
    Option (YM_DELTAT × List Event) :=
  match postloadReplay cfg regs 15 1 { s with volume := 0 } with
  | none => none
  | some (s1, evs) =>
    let s2 := { s1 with reg := s1.reg.set 0 (regs.getD 0 0 % 256) }
    match cfg.read_byte with
    | none => none
    | some m => some ({ s2 with now_data := mem8 m (s2.now_addr >>> 1) }, evs)

/-- The operations a host can invoke on the unit. -/
inductive Op where
  | write (r v : Int)
  | read
  | tick
  | reset (panidx : Nat)
  | postload (regs : List Nat)

/-- Apply one host operation. -/
def applyOp (cfg : YM_DELTAT_CFG) (s : YM_DELTAT) : Op → Option (YM_DELTAT × List Event)
  | .write r v => ADPCMB_write cfg s r v
  | .read =>
    match ADPCMB_read cfg s with
    | none => none
    | some (_, s1, evs) => some (s1, evs)
  | .tick => ADPCMB_CALC cfg s
  | .reset p => some (ADPCMB_reset cfg p s)
  | .postload regs => ADPCMB_postload cfg s regs

/-- Run a sequence of host operations, discarding the event traces. -/
def runOps (cfg : YM_DELTAT_CFG) : YM_DELTAT → List Op → Option YM_DELTAT
  | s, [] => some s
  | s, op :: rest =>
    match applyOp cfg s op with
    | none => none
    | some (s1, _) => runOps cfg s1 rest

/-- Run a sequence of register writes `(r, v)`. -/
def runWrites (cfg : YM_DELTAT_CFG) : YM_DELTAT → List (Int × Int) → Option YM_DELTAT
  | s, [] => some s
  | s, p :: rest =>
    match ADPCMB_write cfg s p.1 p.2 with
    | none => none
    | some (s1, _) => runWrites cfg s1 rest

/-- The state of a unit after power-on reset (`ADPCMB_reset` on a zeroed
struct). -/
def resetUnit (cfg : YM_DELTAT_CFG) (panidx : Nat) : YM_DELTAT :=
  (ADPCMB_reset cfg panidx YM_DELTAT.init).1

/-! ### Shared helper lemmas and concrete host configurations -/

/-- A representative host configuration: `portshift = 8` as installed by the
YM2610 host chip this repository emulates, with all callbacks configured. -/
def hostCfg : YM_DELTAT_CFG :=
  { portshift := 8, output_range := 8388608, read_byte := some (fun a => a % 251),
    write_byte := true, status_set_handler := true, status_reset_handler := true,
    status_change_BRDY_bit := 8, status_change_EOS_bit := 4,
    stepOf := fun d => d, volRescale := fun a _ _ => a }

/-- A host that never configured external memory (`read_byte` NULL). -/
def noMemCfg : YM_DELTAT_CFG := { hostCfg with read_byte := none }

/-- A host with external memory but no write or status callbacks. -/
def quietCfg : YM_DELTAT_CFG :=
  { hostCfg with write_byte := false, status_set_handler := false,
                 status_reset_handler := false }

/-- The unit state after writing 1 to register 4 on a freshly reset unit. -/
def c5wState : YM_DELTAT :=
  { resetUnit hostCfg 0 with reg := (List.replicate 16 0).set 4 1, end_ := 511 }

/-- A concrete pre-state for exercising the dummy-read sequence. -/
def c3wES : YM_DELTAT := { YM_DELTAT.init with start := 4096, end_ := 12543 }

/-- The state after writing 0x00 to register 0 of `c3wES`. -/
def c3wS1 : YM_DELTAT :=
  { c3wES with reg := (List.replicate 16 0).set 0 0, portstate := 32,
               memread := 2, now_addr := 8192 }

/-! ### Host-interaction classification and witness states -/

def Event.isHostCallback : Event → Bool
  | .statusSet _ => true
  | .statusReset _ => true
  | .memWrite _ _ => true
  | .addOut _ _ => false

def Op.wf : Op → Prop
  | .write r _ => 0 ≤ r
  | _ => True

/-- A playback state one decode step from the end address. -/
def c2wPre : YM_DELTAT :=
  { YM_DELTAT.init with portstate := 0xa0, step := 65536, now_addr := 2,
                        end_ := 1, limit := 99, PCM_BSY := 1, adpcml := 77,
                        prev_acc := 3, acc := 5, adpcmd := 200 }

/-- The state after the end-of-stream decode tick on `c2wPre`. -/
def c2wPost : YM_DELTAT :=
  { c2wPre with portstate := 0, PCM_BSY := 0, adpcml := 0, prev_acc := 0 }

/-- From reset: write start base 0xffff, enter external-memory read mode,
then perform 258 data-register reads (2 dummy + 256 real). -/
def c7ops : List Op :=
  [Op.write 2 255, Op.write 3 255, Op.write 0 0] ++ List.replicate 258 Op.read

/-- A playback state mid-stream used to exercise the masked decode loop. -/
def c7wPre : YM_DELTAT :=
  { YM_DELTAT.init with portstate := 0xa0, step := 65536, now_addr := 4,
                        end_ := 1, limit := 99 }

/-- The reachable-state invariant shared by claims C1 and C10: predictor and
step-size bounds, and the `portstate` shape forced by the YM2610 emulation
mode of the register-0 write path. -/
def UnitInv (s : YM_DELTAT) : Prop :=
  (-32768 ≤ s.acc ∧ s.acc ≤ 32767 ∧ 127 ≤ s.adpcmd ∧ s.adpcmd ≤ 24576) ∧
  (s.portstate = 0 ∨ (s.portstate &&& 0x20 = 0x20 ∧ s.portstate &&& 0x40 = 0))

/-- Derived-field coherence: every register-derived field of the unit agrees
with the formula over the current raw register image (under the constant
shift `portshift`, since the DRAM shift is pinned to 0).  `end_` and `limit`
are tracked separately because reset initialises them to values that are
not derived from the (zero) register image. -/
def derivedOK (cfg : YM_DELTAT_CFG) (s : YM_DELTAT) : Prop :=
  s.reg.length = 16 ∧ (∀ i, s.reg.getD i 0 < 256) ∧
  s.DRAMportshift = 0 ∧
  s.start = dStart s.reg cfg.portshift ∧
  s.delta = dDelta s.reg ∧
  s.step = u32 (cfg.stepOf s.delta) ∧
  s.volume = dVol cfg (s.reg.getD 11 0) ∧
  s.control2 = s.reg.getD 1 0 ||| 1 ∧
  s.panIdx = ((s.reg.getD 1 0 ||| 1) >>> 6) &&& 3

/-- The register writes replayed by `ADPCMB_postload`, as a write list. -/
def replayList (regs : List Nat) (idx k : Nat) : List (Int × Int) :=
  (List.range' idx k).map (fun i => (Int.ofNat i, Int.ofNat (regs.getD i 0 % 256)))

/-! ### Theorems -/

theorem lowByte_lt (v : Int) : lowByte v < 256 := by
  have h := Int.emod_nonneg v (show (256 : Int) ≠ 0 by decide)
  have h2 := Int.emod_lt_of_pos v (show (0 : Int) < 256 by decide)
  unfold lowByte
  exact (Int.toNat_lt h).mpr h2

/-- Merging disjoint byte fields: `256 * hi ||| lo = 256 * hi + lo`. -/
theorem lor256 (a b : Nat) (h : b < 256) : 256 * a ||| b = 256 * a + b := by
  apply Nat.eq_of_testBit_eq
  intro j
  rw [Nat.testBit_lor]
  have e : (256 : Nat) = 2 ^ 8 := by norm_num
  have h0 : (256 * a).testBit j = if j < 8 then false else a.testBit (j - 8) := by
    have h00 := Nat.testBit_mul_pow_two_add a (show (0 : Nat) < 2 ^ 8 by norm_num) j
    simpa [e] using h00
  have h1 : (256 * a + b).testBit j = if j < 8 then b.testBit j else a.testBit (j - 8) := by
    have h11 := Nat.testBit_mul_pow_two_add a (show b < 2 ^ 8 by simpa [e] using h) j
    simpa [e] using h11
  rw [h1, h0]
  by_cases hj : j < 8
  · simp [hj]
  · have hb : b.testBit j = false := by
      apply Nat.testBit_lt_two_pow
      calc b < 2 ^ 8 := by simpa [e] using h
        _ ≤ 2 ^ j := Nat.pow_le_pow_right (by norm_num) (by omega)
    simp [hj, hb]

/-- The `portstate` byte computed by a register-0 write always has the
external-memory bit set (it is forced by `v |= 0x20`). -/
theorem reg0_portstate_bit5 : ∀ x < 256, (((x ||| 32) &&& 191) &&& 241) &&& 32 = 32 := by decide

/-- The `portstate` byte computed by a register-0 write always has the
record bit clear (it is forced by `v &= ~0x40`). -/
theorem reg0_portstate_bit6 : ∀ x < 256, (((x ||| 32) &&& 191) &&& 241) &&& 64 = 0 := by decide

/-- With the start bit clear, a register-0 write computes a `portstate` in
external-memory read mode. -/
theorem reg0_portstate_readmode :
    ∀ x < 256, x &&& 128 = 0 → (((x ||| 32) &&& 191) &&& 241) &&& 0xe0 = 0x20 := by decide

/-- The start bit survives into the computed `portstate`. -/
theorem reg0_portstate_bit7 :
    ∀ x < 256, x &&& 128 ≠ 0 → (((x ||| 32) &&& 191) &&& 241) &&& 128 ≠ 0 := by decide

/-- The reset bit survives into the computed `portstate`. -/
theorem reg0_portstate_bit0 :
    ∀ x < 256, x &&& 1 = 0 → (((x ||| 32) &&& 191) &&& 241) &&& 1 = 0 := by decide

/-! ### Claim C9 -/

/-- Claim C9, counterexample: a register index below 0 is not rejected.
`ADPCMB_write` only checks `r >= 0x10`; a negative index reaches the
`reg[r] = v` store, an out-of-bounds write (undefined behaviour, the `none`
outcome of the model), not a state-preserving no-op. -/
theorem c9_counterexample :
    ADPCMB_write hostCfg YM_DELTAT.init (-1) 7 = none ∧
    (none : Option (YM_DELTAT × List Event)) ≠ some (YM_DELTAT.init, []) := by
  constructor
  · decide
  · decide

/-- Claim C9 (amended): a register write with index `>= 0x10` is a rejected
no-op that leaves the unit state, including the raw register image,
unchanged and performs no host callback; indices below 0 are not checked
and perform an out-of-bounds register store. -/
theorem c9_amended (cfg : YM_DELTAT_CFG) (s : YM_DELTAT) (r v : Int) (h : 16 ≤ r) :
    ADPCMB_write cfg s r v = some (s, []) := by
  simp [ADPCMB_write, h]

theorem c9_witness :
    (16 : Int) ≤ 16 ∧ ADPCMB_write hostCfg YM_DELTAT.init 16 0 = some (YM_DELTAT.init, []) :=
  ⟨by decide, c9_amended hostCfg YM_DELTAT.init 16 0 (by decide)⟩

/-! ### Claim C6 -/

/-- Claim C6, counterexample: writing register 0 with the start bit set does
not clear the CPU-data staging byte `CPU_data` (the byte latched from
data-register writes in CPU-synthesis mode); the start block zeroes
`now_data` (the current nibble-pair fetch byte) instead. -/
theorem c6_counterexample :
    (ADPCMB_write hostCfg { YM_DELTAT.init with CPU_data := 5 } 0 128).map
      (fun p => (p.1.CPU_data, p.1.now_data)) = some (5, 0) ∧ (5 : Nat) ≠ 0 := by
  constructor
  · decide
  · decide

/-- Claim C6 (amended): writing register 0 with the start bit set zeroes the
phase accumulator `now_step`, the predictor `acc`, the previous predictor
`prev_acc`, and the held output sample `adpcml`, resets the step size
`adpcmd` to 127, and clears the current nibble-pair fetch byte `now_data`;
the CPU-data staging byte `CPU_data` is left unchanged. -/
theorem c6_amended (cfg : YM_DELTAT_CFG) (s : YM_DELTAT) (v : Int) (s1 : YM_DELTAT)
    (evs : List Event) (h80 : lowByte v &&& 0x80 ≠ 0)
    (hw : ADPCMB_write cfg s 0 v = some (s1, evs)) :
    s1.now_step = 0 ∧ s1.acc = 0 ∧ s1.prev_acc = 0 ∧ s1.adpcml = 0 ∧
    s1.adpcmd = 127 ∧ s1.now_data = 0 ∧ s1.CPU_data = s.CPU_data := by
  have hb := reg0_portstate_bit7 (lowByte v) (lowByte_lt v) h80
  rw [ADPCMB_write] at hw
  norm_num [writeCases] at hw
  rw [writeReg0] at hw
  simp only [if_pos hb] at hw
  split at hw <;> split at hw <;>
    (injection hw with h1 h2; subst h1; simp)

theorem c6_witness :
    (lowByte 128 &&& 0x80 ≠ 0) ∧
    (ADPCMB_write hostCfg YM_DELTAT.init 0 128).map
      (fun p => (p.1.now_step, p.1.acc, p.1.prev_acc, p.1.adpcml, p.1.adpcmd,
                 p.1.now_data, p.1.CPU_data)) =
      some (0, 0, 0, 0, 127, 0, YM_DELTAT.init.CPU_data) := by
  refine ⟨by decide, ?_⟩
  match hEq : ADPCMB_write hostCfg YM_DELTAT.init 0 128 with
  | none => exact absurd hEq (by decide)
  | some (s1, evs) =>
    have h := c6_amended hostCfg YM_DELTAT.init 128 s1 evs (by decide) hEq
    simp [h.1, h.2.1, h.2.2.1, h.2.2.2.1, h.2.2.2.2.1, h.2.2.2.2.2.1, h.2.2.2.2.2.2]

/-! ### Claim C5 -/

/-- Arithmetic core of the amended C5: with a common shift of at most 15
bits and byte-sized register values, the derived inclusive end address is at
least the derived start address whenever the 16-bit end base is at least the
16-bit start base. -/
theorem dEnd_ge_dStart (regs regs' : List Nat) (sh : Nat) (hsh : sh ≤ 15)
    (hb2 : regs.getD 2 0 < 256) (hb3 : regs.getD 3 0 < 256)
    (hb4 : regs'.getD 4 0 < 256) (hb5 : regs'.getD 5 0 < 256)
    (hbase : 256 * regs.getD 3 0 + regs.getD 2 0 ≤ 256 * regs'.getD 5 0 + regs'.getD 4 0) :
    dStart regs sh ≤ dEnd regs' sh := by
  have hp1 : 1 ≤ 2 ^ sh := Nat.one_le_two_pow
  have hp : 2 ^ sh ≤ 32768 := by
    calc 2 ^ sh ≤ 2 ^ 15 := Nat.pow_le_pow_right (by norm_num) hsh
      _ = 32768 := by norm_num
  unfold dStart dEnd u32
  rw [mul_comm (regs.getD 3 0) 256, lor256 _ _ hb2,
      mul_comm (regs'.getD 5 0) 256, lor256 _ _ hb4,
      Nat.shiftLeft_eq, Nat.shiftLeft_eq, Nat.shiftLeft_eq, one_mul]
  have hsB : 256 * regs.getD 3 0 + regs.getD 2 0 ≤ 65535 := by omega
  have heB : 256 * regs'.getD 5 0 + regs'.getD 4 0 ≤ 65535 := by omega
  have h1 : (256 * regs.getD 3 0 + regs.getD 2 0) * 2 ^ sh < 4294967296 := by
    calc (256 * regs.getD 3 0 + regs.getD 2 0) * 2 ^ sh ≤ 65535 * 32768 :=
        Nat.mul_le_mul hsB hp
      _ < 4294967296 := by norm_num
  have h2 : (256 * regs'.getD 5 0 + regs'.getD 4 0) * 2 ^ sh < 4294967296 := by
    calc (256 * regs'.getD 5 0 + regs'.getD 4 0) * 2 ^ sh ≤ 65535 * 32768 :=
        Nat.mul_le_mul heB hp
      _ < 4294967296 := by norm_num
  have h3 : (256 * regs'.getD 5 0 + regs'.getD 4 0) * 2 ^ sh % 4294967296
      + (2 ^ sh - 1) < 4294967296 := by
    rw [Nat.mod_eq_of_lt h2]
    have h4 : (256 * regs'.getD 5 0 + regs'.getD 4 0) * 2 ^ sh ≤ 65535 * 32768 :=
      Nat.mul_le_mul heB hp
    omega
  rw [Nat.mod_eq_of_lt h1, Nat.mod_eq_of_lt h3, Nat.mod_eq_of_lt h2]
  have h5 := Nat.mul_le_mul_right (2 ^ sh) hbase
  omega

/-- Claim C5, counterexample: `address_end ≥ address_start` does not hold
for every register image.  From reset, deriving the end address from end
base 0 (writes to registers 4 and 5) and then the start address from start
base 1 (write to register 2) leaves `start = 256 > 255 = end`: the claimed
invariant fails right after the derived-address recomputation performed by
the register-2 write. -/
theorem c5_counterexample :
    (runWrites hostCfg (resetUnit hostCfg 0) [(4, 0), (5, 0), (2, 1)]).map
      (fun s => (s.start, s.end_)) = some (256, 255) ∧ ¬ (255 ≥ 256) := by
  constructor
  · decide
  · decide

/-- Claim C5 (amended): after a write to register 4 or 5 recomputes the end
address, `address_end ≥ address_start` holds provided the stored 16-bit end
base `reg[5]:reg[4]` is at least the start base `reg[3]:reg[2]` (with
byte-sized stored registers, the current shift at most 15 bits, and a start
address derived under the same shift); when the end base is smaller than
the start base the inequality can fail. -/
theorem c5_amended (cfg : YM_DELTAT_CFG) (s : YM_DELTAT) (r v : Int) (s' : YM_DELTAT)
    (evs : List Event) (h45 : r = 4 ∨ r = 5)
    (hw : ADPCMB_write cfg s r v = some (s', evs))
    (hstart : s.start = dStart s.reg (cfg.portshift - s.DRAMportshift))
    (hsh : cfg.portshift - s.DRAMportshift ≤ 15)
    (hb2 : s.reg.getD 2 0 < 256) (hb3 : s.reg.getD 3 0 < 256)
    (hb4 : s'.reg.getD 4 0 < 256) (hb5 : s'.reg.getD 5 0 < 256)
    (hbase : 256 * s.reg.getD 3 0 + s.reg.getD 2 0 ≤ 256 * s'.reg.getD 5 0 + s'.reg.getD 4 0) :
    s'.start ≤ s'.end_ := by
  rcases h45 with rfl | rfl <;>
  · rw [ADPCMB_write] at hw
    norm_num [writeCases] at hw
    injection hw with h1 h2
    subst h1
    rw [hstart]
    exact dEnd_ge_dStart s.reg _ _ hsh hb2 hb3 hb4 hb5 hbase

theorem c5_witness :
    ((4 : Int) = 4 ∨ (4 : Int) = 5) ∧
    ADPCMB_write hostCfg (resetUnit hostCfg 0) 4 1 = some (c5wState, []) ∧
    (resetUnit hostCfg 0).start =
      dStart (resetUnit hostCfg 0).reg
        (hostCfg.portshift - (resetUnit hostCfg 0).DRAMportshift) ∧
    c5wState.start ≤ c5wState.end_ := by
  have hw : ADPCMB_write hostCfg (resetUnit hostCfg 0) 4 1 = some (c5wState, []) := by decide
  exact ⟨Or.inl rfl, hw, by decide,
    c5_amended hostCfg (resetUnit hostCfg 0) 4 1 c5wState [] (Or.inl rfl) hw (by decide)
      (by decide) (by decide) (by decide) (by decide) (by decide) (by decide)⟩

/-! ### Claim C3 -/

/-- With the start bit clear, a register-0 write computes a `portstate`
whose start bit is clear. -/
theorem reg0_portstate_bit7_clear : ∀ x < 256, x &&& 128 = 0 → (((x ||| 32) &&& 191) &&& 241) &&& 128 = 0 := by decide

/-- Claim C3: after entering external-memory read mode by a register-0
write with the start bit clear (and the reset bit clear, which would
abort the mode), the first two data-register reads return zero and
reposition the cursor to `start << 1` (nibble units); the third read
returns the byte stored at `address_start` and advances the cursor by one
byte, i.e. two nibble units (modulo the 32-bit cursor width).  The
hypotheses require a configured external memory, a start address inside
the 31-bit range where doubling cannot wrap, and a cursor distinct from
the end sentinel (at the end address the read raises EOS instead, as the
specification itself notes). -/
theorem c3_dummy_reads (cfg : YM_DELTAT_CFG) (s : YM_DELTAT) (v : Int) (m : Nat → Nat)
    (s1 : YM_DELTAT) (evs1 : List Event)
    (hm : cfg.read_byte = some m)
    (h80 : lowByte v &&& 0x80 = 0) (h01 : lowByte v &&& 0x01 = 0)
    (hw : ADPCMB_write cfg s 0 v = some (s1, evs1))
    (hlt : s.start < 2147483648)
    (hne : 2 * s.start ≠ u32 (2 * s.end_)) :
    ∃ s2 s3 s4 evs3,
      ADPCMB_read cfg s1 = some (0, s2, []) ∧ s2.now_addr = 2 * s.start ∧
      ADPCMB_read cfg s2 = some (0, s3, []) ∧ s3.now_addr = 2 * s.start ∧
      ADPCMB_read cfg s3 = some (mem8 m s.start, s4, evs3) ∧
      s4.now_addr = u32 (2 * s.start + 2) := by
  have hb := lowByte_lt v
  have hpe := reg0_portstate_readmode (lowByte v) hb h80
  have hp5 := reg0_portstate_bit5 (lowByte v) hb
  have hp7 := reg0_portstate_bit7_clear (lowByte v) hb h80
  have hp0 := reg0_portstate_bit0 (lowByte v) hb h01
  rw [ADPCMB_write] at hw
  norm_num [writeCases] at hw
  rw [writeReg0] at hw
  simp only [if_neg (show ¬ ((((lowByte v ||| 32) &&& 191) &&& 241) &&& 128 ≠ 0) by simp [hp7]),
    if_pos (show (((lowByte v ||| 32) &&& 191) &&& 241) &&& 32 ≠ 0 by omega),
    if_neg (show ¬ ((((lowByte v ||| 32) &&& 191) &&& 241) &&& 1 ≠ 0) by simp [hp0])] at hw
  injection hw with h1 h2
  have hps : s1.portstate = ((lowByte v ||| 32) &&& 191) &&& 241 := by rw [← h1]
  have hmr : s1.memread = 2 := by rw [← h1]
  have hst : s1.start = s.start := by rw [← h1]
  have hen : s1.end_ = s.end_ := by rw [← h1]
  have hu : u32 (2 * s.start) = 2 * s.start := by unfold u32; omega
  have hco : s1.portstate &&& 0xe0 = 0x20 := by rw [hps]; exact hpe
  refine ⟨{ s1 with now_addr := 2 * s.start, memread := 1 },
          { s1 with now_addr := 2 * s.start, memread := 0 },
          { s1 with now_addr := u32 (2 * s.start + 2), memread := 0 },
          emitReset cfg cfg.status_change_BRDY_bit ++ emitSet cfg cfg.status_change_BRDY_bit,
          ?_, rfl, ?_, rfl, ?_, rfl⟩
  · rw [ADPCMB_read, if_pos hco, if_pos (show s1.memread ≠ 0 by omega)]
    simp [hst, hu, hmr]
  · rw [ADPCMB_read, if_pos (show ({ s1 with now_addr := 2 * s.start, memread := 1 } :
        YM_DELTAT).portstate &&& 0xe0 = 0x20 from hco),
      if_pos (show ({ s1 with now_addr := 2 * s.start, memread := 1 } :
        YM_DELTAT).memread ≠ 0 by norm_num)]
    simp [hst, hu]
  · rw [ADPCMB_read, if_pos (show ({ s1 with now_addr := 2 * s.start, memread := 0 } :
        YM_DELTAT).portstate &&& 0xe0 = 0x20 from hco),
      if_neg (show ¬ (({ s1 with now_addr := 2 * s.start, memread := 0 } :
        YM_DELTAT).memread ≠ 0) by norm_num),
      if_pos (show ({ s1 with now_addr := 2 * s.start, memread := 0 } :
        YM_DELTAT).now_addr ≠ u32 (2 * ({ s1 with now_addr := 2 * s.start, memread := 0 } :
        YM_DELTAT).end_) by simpa [hen] using hne), hm]
    have hsr : (2 * s.start) >>> 1 = s.start := by
      rw [Nat.shiftRight_one]
      omega
    simp only [hsr]

theorem c3_witness :
    (lowByte 0 &&& 0x80 = 0) ∧ (lowByte 0 &&& 0x01 = 0) ∧
    c3wES.start < 2147483648 ∧ (2 * c3wES.start ≠ u32 (2 * c3wES.end_)) ∧
    (∃ s2 s3 s4 evs3,
      ADPCMB_read hostCfg c3wS1 = some (0, s2, []) ∧ s2.now_addr = 2 * c3wES.start ∧
      ADPCMB_read hostCfg s2 = some (0, s3, []) ∧ s3.now_addr = 2 * c3wES.start ∧
      ADPCMB_read hostCfg s3 = some (mem8 (fun a => a % 251) c3wES.start, s4, evs3) ∧
      s4.now_addr = u32 (2 * c3wES.start + 2)) := by
  have hw : ADPCMB_write hostCfg c3wES 0 0 = some (c3wS1, []) := by decide
  exact ⟨by decide, by decide, by decide, by decide,
    c3_dummy_reads hostCfg c3wES 0 (fun a => a % 251) c3wS1 [] rfl (by decide) (by decide)
      hw (by decide) (by decide)⟩

theorem emitSet_nil (cfg : YM_DELTAT_CFG) (b : Nat) (h : cfg.status_set_handler = false) :
    emitSet cfg b = [] := by simp [emitSet, h]

theorem emitReset_nil (cfg : YM_DELTAT_CFG) (b : Nat) (h : cfg.status_reset_handler = false) :
    emitReset cfg b = [] := by simp [emitReset, h]

theorem writeReg0_quiet (cfg : YM_DELTAT_CFG) (s : YM_DELTAT) (lv : Nat)
    (hs : cfg.status_set_handler = false) : (writeReg0 cfg s lv).2 = [] := by
  simp only [writeReg0]
  split_ifs <;> simp [emitSet, hs]

theorem writeReg1_snd (cfg : YM_DELTAT_CFG) (s : YM_DELTAT) (lv : Nat) :
    (writeReg1 cfg s lv).2 = [] := rfl

theorem writeReg8_quiet (cfg : YM_DELTAT_CFG) (s : YM_DELTAT) (lv : Nat)
    (hs : cfg.status_set_handler = false) (hr : cfg.status_reset_handler = false)
    (hw : cfg.write_byte = false) : (writeReg8 cfg s lv).2 = [] := by
  simp only [writeReg8]
  split_ifs <;> simp_all [emitSet, emitReset]

theorem writeRegB_snd (cfg : YM_DELTAT_CFG) (s : YM_DELTAT) (lv : Nat) :
    (writeRegB cfg s lv).2 = [] := by
  simp only [writeRegB]
  split_ifs <;> rfl

theorem writeCases_quiet (cfg : YM_DELTAT_CFG) (s : YM_DELTAT) (rn lv : Nat)
    (hs : cfg.status_set_handler = false) (hr : cfg.status_reset_handler = false)
    (hw : cfg.write_byte = false) :
    (writeCases cfg s rn lv).2 = [] := by
  unfold writeCases
  split_ifs <;>
    first
      | rfl
      | exact writeReg0_quiet cfg s lv hs
      | exact writeReg1_snd cfg s lv
      | exact writeReg8_quiet cfg s lv hs hr hw
      | exact writeRegB_snd cfg s lv

theorem write_quiet (cfg : YM_DELTAT_CFG) (s : YM_DELTAT) (r v : Int) (h0 : 0 ≤ r)
    (hs : cfg.status_set_handler = false) (hr : cfg.status_reset_handler = false)
    (hw : cfg.write_byte = false) :
    ∃ s', ADPCMB_write cfg s r v = some (s', []) := by
  unfold ADPCMB_write
  by_cases h16 : 16 ≤ r
  · exact ⟨s, by simp [h16]⟩
  · refine ⟨(writeCases cfg { s with reg := s.reg.set r.toNat (lowByte v) } r.toNat (lowByte v)).1, ?_⟩
    rw [if_neg h16, if_neg (by omega)]
    rw [show (writeCases cfg { s with reg := s.reg.set r.toNat (lowByte v) } r.toNat (lowByte v))
      = ((writeCases cfg { s with reg := s.reg.set r.toNat (lowByte v) } r.toNat (lowByte v)).1, []) from
      Prod.ext rfl (writeCases_quiet cfg _ _ _ hs hr hw)]

theorem extNibble_some (cfg : YM_DELTAT_CFG) (m : Nat → Nat) (s : YM_DELTAT)
    (hm : cfg.read_byte = some m) : ∃ t, extNibble cfg s = some t := by
  unfold extNibble
  split_ifs
  · exact ⟨_, rfl⟩
  · rw [hm]; exact ⟨_, rfl⟩

theorem extLoop_quiet (cfg : YM_DELTAT_CFG) (m : Nat → Nat)
    (hm : cfg.read_byte = some m) (hs : cfg.status_set_handler = false) :
    ∀ k s, ∃ s' early, extLoop cfg k s = some (s', [], early) := by
  intro k
  induction k with
  | zero => exact fun s => ⟨s, false, rfl⟩
  | succ n ih =>
    intro s
    simp only [extLoop]
    generalize (if s.now_addr = u32 (2 * s.limit) then { s with now_addr := 0 } else s) = s1
    by_cases hend : s1.now_addr = u32 (2 * s1.end_)
    · rw [if_pos hend]
      by_cases hrep : s1.portstate &&& 16 ≠ 0
      · rw [if_pos hrep]
        obtain ⟨t, ht⟩ := extNibble_some cfg m _ hm
        rw [ht]
        exact ih t
      · rw [if_neg hrep, emitSet_nil cfg _ hs]
        exact ⟨_, true, rfl⟩
    · rw [if_neg hend]
      obtain ⟨t, ht⟩ := extNibble_some cfg m _ hm
      rw [ht]
      exact ih t

theorem cpuLoop_quiet (cfg : YM_DELTAT_CFG) (hs : cfg.status_set_handler = false) :
    ∀ k s, (cpuLoop cfg k s).2 = [] := by
  intro k
  induction k with
  | zero => intro s; rfl
  | succ n ih =>
    intro s
    simp only [cpuLoop]
    split_ifs <;> simp [emitSet_nil cfg _ hs, ih]

theorem read_quiet (cfg : YM_DELTAT_CFG) (m : Nat → Nat) (s : YM_DELTAT)
    (hm : cfg.read_byte = some m) (hs : cfg.status_set_handler = false)
    (hr : cfg.status_reset_handler = false) :
    ∃ r s', ADPCMB_read cfg s = some (r, s', []) := by
  unfold ADPCMB_read
  split_ifs
  · exact ⟨_, _, rfl⟩
  · rw [hm, emitReset_nil cfg _ hr, emitSet_nil cfg _ hs]
    exact ⟨_, _, rfl⟩
  · rw [emitSet_nil cfg _ hs]
    exact ⟨_, _, rfl⟩
  · exact ⟨_, _, rfl⟩

theorem cpuSynth_quiet (cfg : YM_DELTAT_CFG) (s : YM_DELTAT)
    (hs : cfg.status_set_handler = false) :
    ∀ e ∈ (YM_DELTAT_synthesis_from_CPU_memory cfg s).2, e.isHostCallback = false := by
  simp only [YM_DELTAT_synthesis_from_CPU_memory]
  split_ifs
  · simp [cpuLoop_quiet cfg hs, Event.isHostCallback]
  · simp [Event.isHostCallback]

theorem extSynth_quiet (cfg : YM_DELTAT_CFG) (m : Nat → Nat) (s : YM_DELTAT)
    (hm : cfg.read_byte = some m) (hs : cfg.status_set_handler = false) :
    ∃ s' evs, YM_DELTAT_synthesis_from_external_memory cfg s = some (s', evs) ∧
      ∀ e ∈ evs, e.isHostCallback = false := by
  simp only [YM_DELTAT_synthesis_from_external_memory]
  by_cases hns : 65536 ≤ u32 (s.now_step + s.step)
  · rw [if_pos hns]
    obtain ⟨s2, early, h⟩ := extLoop_quiet cfg m hm hs (u32 (s.now_step + s.step) >>> 16)
      { s with now_step := u32 (s.now_step + s.step) &&& 65535 }
    rw [h]
    cases early
    · refine ⟨_, _, rfl, ?_⟩
      simp [Event.isHostCallback]
    · refine ⟨_, _, rfl, ?_⟩
      simp [Event.isHostCallback]
  · rw [if_neg hns]
    refine ⟨_, _, rfl, ?_⟩
    simp [Event.isHostCallback]

theorem calc_quiet (cfg : YM_DELTAT_CFG) (m : Nat → Nat) (s : YM_DELTAT)
    (hm : cfg.read_byte = some m) (hs : cfg.status_set_handler = false) :
    ∃ s' evs, ADPCMB_CALC cfg s = some (s', evs) ∧
      ∀ e ∈ evs, e.isHostCallback = false := by
  unfold ADPCMB_CALC
  split_ifs
  · exact extSynth_quiet cfg m s hm hs
  · exact ⟨(YM_DELTAT_synthesis_from_CPU_memory cfg s).1,
      (YM_DELTAT_synthesis_from_CPU_memory cfg s).2,
      congrArg some Prod.mk.eta.symm, cpuSynth_quiet cfg s hs⟩
  · exact ⟨_, _, rfl, by simp⟩

theorem postloadReplay_quiet (cfg : YM_DELTAT_CFG) (regs : List Nat)
    (hs : cfg.status_set_handler = false) (hr : cfg.status_reset_handler = false)
    (hw : cfg.write_byte = false) :
    ∀ k idx s, ∃ s', postloadReplay cfg regs k idx s = some (s', []) := by
  intro k
  induction k with
  | zero => exact fun idx s => ⟨s, rfl⟩
  | succ n ih =>
    intro idx s
    obtain ⟨s1, h1⟩ := write_quiet cfg s (idx : Int) ((regs.getD idx 0 % 256 : Nat) : Int)
      (Int.ofNat_nonneg idx) hs hr hw
    obtain ⟨s2, h2⟩ := ih (idx + 1) s1
    refine ⟨s2, ?_⟩
    rw [postloadReplay]
    rw [h1]
    simp [h2]

/-! ### Claim C8 -/

/-- Claim C8, counterexample: the memory-read pointer is not guarded.  With
no `read_byte` configured, a data-register read in external-memory read
mode past the dummy reads dereferences the NULL pointer (the `none`
outcome) instead of degrading to a no-op. -/
theorem c8_counterexample :
    applyOp noMemCfg { YM_DELTAT.init with portstate := 0x20, end_ := 1 } Op.read = none ∧
    (none : Option (YM_DELTAT × List Event)) ≠
      some ({ YM_DELTAT.init with portstate := 0x20, end_ := 1 }, []) := by
  constructor
  · decide
  · decide

/-- Claim C8 (amended): the write-byte, status-set and status-reset
callbacks degrade to no-ops when not configured: with those three absent
but external memory configured, every well-formed operation (register
write with non-negative index, decode tick, data-register read, reset,
restore) still succeeds and invokes no host callback.  The memory-read
pointer is the exception: it is dereferenced unguarded, so operations that
fetch from external memory fail outright without it (see the
counterexample). -/
theorem c8_amended (cfg : YM_DELTAT_CFG) (m : Nat → Nat) (s : YM_DELTAT) (op : Op)
    (hm : cfg.read_byte = some m) (hs : cfg.status_set_handler = false)
    (hr : cfg.status_reset_handler = false) (hw : cfg.write_byte = false)
    (hop : op.wf) :
    ∃ s' evs, applyOp cfg s op = some (s', evs) ∧
      ∀ e ∈ evs, e.isHostCallback = false := by
  cases op with
  | write r v =>
    obtain ⟨s', h⟩ := write_quiet cfg s r v hop hs hr hw
    exact ⟨s', [], by simp [applyOp, h]⟩
  | read =>
    obtain ⟨r, s', h⟩ := read_quiet cfg m s hm hs hr
    exact ⟨s', [], by simp [applyOp, h]⟩
  | tick =>
    obtain ⟨s', evs, h, he⟩ := calc_quiet cfg m s hm hs
    exact ⟨s', evs, by simpa [applyOp, h] using he⟩
  | reset p =>
    have hsnd : (ADPCMB_reset cfg p s).2 = [] := by
      simp [ADPCMB_reset, emitSet_nil cfg _ hs]
    refine ⟨(ADPCMB_reset cfg p s).1, [], ?_, by simp⟩
    exact congrArg some (Prod.ext rfl hsnd)
  | postload regs =>
    obtain ⟨s1, h1⟩ := postloadReplay_quiet cfg regs hs hr hw 15 1 { s with volume := 0 }
    refine ⟨{ { s1 with reg := s1.reg.set 0 (regs.getD 0 0 % 256) } with
        now_data := mem8 m ({ s1 with reg := s1.reg.set 0 (regs.getD 0 0 % 256) }.now_addr >>> 1) },
      [], ?_, by simp⟩
    simp [applyOp, ADPCMB_postload, h1, hm]

theorem c8_witness :
    quietCfg.read_byte = some (fun a => a % 251) ∧
    quietCfg.status_set_handler = false ∧
    (∃ s' evs, applyOp quietCfg YM_DELTAT.init Op.read = some (s', evs) ∧
      ∀ e ∈ evs, e.isHostCallback = false) :=
  ⟨rfl, rfl,
    c8_amended quietCfg (fun a => a % 251) YM_DELTAT.init Op.read rfl rfl rfl rfl trivial⟩

/-! ### Claim C2 -/

theorem extLoop_eos (cfg : YM_DELTAT_CFG) :
    ∀ (k : Nat) (s s' : YM_DELTAT) (evs : List Event) (early : Bool),
      extLoop cfg k s = some (s', evs, early) →
      (early = true → evs = emitSet cfg cfg.status_change_EOS_bit ∧ s'.portstate = 0 ∧
        s'.PCM_BSY = 0 ∧ s'.adpcml = 0 ∧ s'.prev_acc = 0) ∧
      (early = false → evs = []) := by
  intro k
  induction k with
  | zero =>
    intro s s' evs early h
    rw [extLoop] at h
    injection h with h
    injection h with h1 h2
    injection h2 with h2 h3
    subst h1; subst h2; subst h3
    exact ⟨fun hc => Bool.noConfusion hc, fun _ => rfl⟩
  | succ n ih =>
    intro s s' evs early h
    simp only [extLoop] at h
    generalize hg : (if s.now_addr = u32 (2 * s.limit) then { s with now_addr := 0 } else s) = s1 at h
    by_cases hend : s1.now_addr = u32 (2 * s1.end_)
    · rw [if_pos hend] at h
      by_cases hrep : s1.portstate &&& 16 ≠ 0
      · rw [if_pos hrep] at h
        cases hn : (extNibble cfg { s1 with now_addr := u32 (2 * s1.start), acc := 0, adpcmd := 127, prev_acc := 0 }) with
        | none => rw [hn] at h; cases h
        | some t => rw [hn] at h; exact ih t s' evs early h
      · rw [if_neg hrep] at h
        injection h with h
        injection h with h1 h2
        injection h2 with h2 h3
        subst h1; subst h2; subst h3
        exact ⟨fun _ => ⟨rfl, rfl, rfl, rfl, rfl⟩, fun hc => Bool.noConfusion hc⟩
    · rw [if_neg hend] at h
      cases hn : extNibble cfg s1 with
      | none => rw [hn] at h; cases h
      | some t => rw [hn] at h; exact ih t s' evs early h

theorem writeCases_portstate (cfg : YM_DELTAT_CFG) (s : YM_DELTAT) (rn lv : Nat)
    (h : rn ≠ 0) : (writeCases cfg s rn lv).1.portstate = s.portstate := by
  unfold writeCases
  rw [if_neg h]
  split_ifs
  · simp only [writeReg1]; split_ifs <;> rfl
  · rfl
  · rfl
  · simp only [writeReg8]; split_ifs <;> rfl
  · rfl
  · simp only [writeRegB]; split_ifs <;> rfl
  · rfl
  · rfl

/-- Claim C2: in external-memory playback with the repeat bit clear, the
decode tick on which the cursor reaches `address_end` emits exactly one
end-of-stream status-set callback and nothing else (in particular no output
accumulation), clears `portstate` and the busy flag, and zeroes `adpcml`
and `prev_acc` (first conjunct); once `portstate` is 0, every further
decode tick is a complete no-op — no state change, no cursor advance, no
callback (second conjunct); and `portstate` stays 0 across data-register
reads and writes to any register other than 0, so only a new register-0
write (the start-bit path) can re-arm playback (third and fourth
conjuncts). -/
theorem c2_eos_once :
    (∀ (cfg : YM_DELTAT_CFG) (s s' : YM_DELTAT) (evs : List Event),
      s.portstate &&& 0xe0 = 0xa0 → s.portstate &&& 0x10 = 0 →
      ADPCMB_CALC cfg s = some (s', evs) →
      Event.statusSet cfg.status_change_EOS_bit ∈ evs →
      evs = [Event.statusSet cfg.status_change_EOS_bit] ∧ s'.portstate = 0 ∧
        s'.PCM_BSY = 0 ∧ s'.adpcml = 0 ∧ s'.prev_acc = 0) ∧
    (∀ (cfg : YM_DELTAT_CFG) (s : YM_DELTAT), s.portstate = 0 →
      ADPCMB_CALC cfg s = some (s, [])) ∧
    (∀ (cfg : YM_DELTAT_CFG) (s s' : YM_DELTAT) (evs : List Event) (r v : Int),
      s.portstate = 0 → 1 ≤ r → ADPCMB_write cfg s r v = some (s', evs) →
      s'.portstate = 0) ∧
    (∀ (cfg : YM_DELTAT_CFG) (s : YM_DELTAT), s.portstate = 0 →
      ADPCMB_read cfg s = some (0, s, [])) := by
  refine ⟨?_, ?_, ?_, ?_⟩
  · intro cfg s s' evs hmode hrep hcalc hmem
    rw [ADPCMB_CALC, if_pos hmode] at hcalc
    simp only [YM_DELTAT_synthesis_from_external_memory] at hcalc
    by_cases hns : 65536 ≤ u32 (s.now_step + s.step)
    · rw [if_pos hns] at hcalc
      cases hl : extLoop cfg (u32 (s.now_step + s.step) >>> 16)
          { s with now_step := u32 (s.now_step + s.step) &&& 65535 } with
      | none => rw [hl] at hcalc; cases hcalc
      | some res =>
        obtain ⟨s2, levs, early⟩ := res
        rw [hl] at hcalc
        have hle := extLoop_eos cfg _ _ _ _ _ hl
        cases early with
        | false =>
          rw [hle.2 rfl] at hcalc
          simp only [Bool.false_eq_true, if_false, List.nil_append] at hcalc
          injection hcalc with hcalc
          injection hcalc with h1 h2
          subst h2
          simp at hmem
        | true =>
          simp only [if_true] at hcalc
          injection hcalc with hcalc
          injection hcalc with h1 h2
          subst h1; subst h2
          obtain ⟨hev, hp, hb, hl2, hpr⟩ := hle.1 rfl
          subst hev
          unfold emitSet at hmem ⊢
          split_ifs at hmem ⊢ with hc
          · exact ⟨rfl, hp, hb, hl2, hpr⟩
          · simp at hmem
    · rw [if_neg hns] at hcalc
      injection hcalc with hcalc
      injection hcalc with h1 h2
      subst h2
      simp at hmem
  · intro cfg s h
    rw [ADPCMB_CALC, if_neg (by rw [h]; decide), if_neg (by rw [h]; decide)]
  · intro cfg s s' evs r v h h1 hw
    unfold ADPCMB_write at hw
    by_cases h16 : 16 ≤ r
    · rw [if_pos h16] at hw
      injection hw with hw
      injection hw with hw1 hw2
      subst hw1
      exact h
    · rw [if_neg h16, if_neg (by omega)] at hw
      injection hw with hw
      have hfst := congrArg Prod.fst hw
      simp only at hfst
      rw [← hfst, writeCases_portstate cfg _ _ _ (show r.toNat ≠ 0 by omega)]
      exact h
  · intro cfg s h
    rw [ADPCMB_read, if_neg (by rw [h]; decide)]

theorem c2_witness :
    (c2wPre.portstate &&& 0xe0 = 0xa0) ∧ (c2wPre.portstate &&& 0x10 = 0) ∧
    ADPCMB_CALC hostCfg c2wPre =
      some (c2wPost, [Event.statusSet hostCfg.status_change_EOS_bit]) ∧
    ([Event.statusSet hostCfg.status_change_EOS_bit] =
        [Event.statusSet hostCfg.status_change_EOS_bit] ∧ c2wPost.portstate = 0 ∧
      c2wPost.PCM_BSY = 0 ∧ c2wPost.adpcml = 0 ∧ c2wPost.prev_acc = 0) ∧
    ADPCMB_CALC hostCfg c2wPost = some (c2wPost, []) := by
  have h1 : ADPCMB_CALC hostCfg c2wPre =
      some (c2wPost, [Event.statusSet hostCfg.status_change_EOS_bit]) := by decide
  refine ⟨by decide, by decide, h1, ?_, ?_⟩
  · exact c2_eos_once.1 hostCfg c2wPre c2wPost _ (by decide) (by decide) h1 (by decide)
  · exact c2_eos_once.2.1 hostCfg c2wPost (by decide)

/-! ### Claim C7 -/

set_option maxHeartbeats 1000000 in
/-- Claim C7, counterexample: the cursor is not masked after every
increment.  From reset, writing start base 0xffff, entering external-memory
read mode, and performing 258 data-register reads (2 dummy + 256 real,
which the read path only truncates to 32 bits) drives `now_addr` to
exactly 2^25, violating `current_address < 2^25`. -/
theorem c7_counterexample :
    (runOps hostCfg (resetUnit hostCfg 0) c7ops).map (fun s => s.now_addr) =
      some 33554432 ∧ ¬ (33554432 < 2 ^ 25) := by
  constructor
  · decide
  · decide

theorem decodeTail_masked (data : Nat) (s : YM_DELTAT) :
    (decodeTail 33554431 data s).now_addr < 2 ^ 25 := by
  have h : u32 (s.now_addr + 1) &&& 33554431 ≤ 33554431 := Nat.and_le_right
  simp only [decodeTail]
  omega

theorem extNibble_masked (cfg : YM_DELTAT_CFG) (s t : YM_DELTAT)
    (h : extNibble cfg s = some t) : t.now_addr < 2 ^ 25 := by
  unfold extNibble at h
  split_ifs at h
  · injection h with h
    subst h
    exact decodeTail_masked _ _
  · cases hm : cfg.read_byte with
    | none => rw [hm] at h; cases h
    | some m =>
      rw [hm] at h
      injection h with h
      subst h
      exact decodeTail_masked _ _

theorem extLoop_masked (cfg : YM_DELTAT_CFG) :
    ∀ (k : Nat) (s s' : YM_DELTAT) (evs : List Event) (early : Bool),
      s.now_addr < 2 ^ 25 → extLoop cfg k s = some (s', evs, early) →
      s'.now_addr < 2 ^ 25 := by
  intro k
  induction k with
  | zero =>
    intro s s' evs early hlt h
    rw [extLoop] at h
    injection h with h
    injection h with h1 h2
    subst h1
    exact hlt
  | succ n ih =>
    intro s s' evs early hlt h
    simp only [extLoop] at h
    have hlt1 : (if s.now_addr = u32 (2 * s.limit) then { s with now_addr := 0 }
        else s).now_addr < 2 ^ 25 := by
      split_ifs
      · norm_num
      · exact hlt
    generalize hg : (if s.now_addr = u32 (2 * s.limit) then { s with now_addr := 0 } else s) = s1 at h hlt1
    by_cases hend : s1.now_addr = u32 (2 * s1.end_)
    · rw [if_pos hend] at h
      by_cases hrep : s1.portstate &&& 16 ≠ 0
      · rw [if_pos hrep] at h
        cases hn : (extNibble cfg { s1 with now_addr := u32 (2 * s1.start), acc := 0, adpcmd := 127, prev_acc := 0 }) with
        | none => rw [hn] at h; cases h
        | some t => rw [hn] at h; exact ih t s' evs early (extNibble_masked cfg _ t hn) h
      · rw [if_neg hrep] at h
        injection h with h
        injection h with h1 h2
        subst h1
        exact hlt1
    · rw [if_neg hend] at h
      cases hn : (extNibble cfg s1) with
      | none => rw [hn] at h; cases h
      | some t => rw [hn] at h; exact ih t s' evs early (extNibble_masked cfg _ t hn) h

/-- Claim C7 (amended): the 25-bit mask is applied after each cursor
increment performed by the external-memory decode loop, so an
external-memory decode tick started with `current_address < 2^25` leaves it
below `2^25`; the increments performed by the CPU-fed decode loop and by
direct data-register reads are only truncated to the 32-bit cursor width,
and from reset the unit can be driven (see the counterexample) to
`current_address = 2^25` by data-register reads. -/
theorem c7_amended (cfg : YM_DELTAT_CFG) (s s' : YM_DELTAT) (evs : List Event)
    (hmode : s.portstate &&& 0xe0 = 0xa0) (hlt : s.now_addr < 2 ^ 25)
    (hcalc : ADPCMB_CALC cfg s = some (s', evs)) : s'.now_addr < 2 ^ 25 := by
  rw [ADPCMB_CALC, if_pos hmode] at hcalc
  simp only [YM_DELTAT_synthesis_from_external_memory] at hcalc
  by_cases hns : 65536 ≤ u32 (s.now_step + s.step)
  · rw [if_pos hns] at hcalc
    cases hl : (extLoop cfg (u32 (s.now_step + s.step) >>> 16) { s with now_step := u32 (s.now_step + s.step) &&& 65535 }) with
    | none => rw [hl] at hcalc; cases hcalc
    | some res =>
      obtain ⟨s2, levs, early⟩ := res
      rw [hl] at hcalc
      have h2 := extLoop_masked cfg (u32 (s.now_step + s.step) >>> 16)
        { s with now_step := u32 (s.now_step + s.step) &&& 65535 } s2 levs early hlt hl
      cases early with
      | false =>
        simp only [Bool.false_eq_true, if_false] at hcalc
        injection hcalc with hcalc
        injection hcalc with h1 _
        subst h1
        exact h2
      | true =>
        simp only [if_true] at hcalc
        injection hcalc with hcalc
        injection hcalc with h1 _
        subst h1
        exact h2
  · rw [if_neg hns] at hcalc
    injection hcalc with hcalc
    injection hcalc with h1 _
    subst h1
    exact hlt

theorem c7_witness :
    (c7wPre.portstate &&& 0xe0 = 0xa0) ∧ c7wPre.now_addr < 2 ^ 25 ∧
    (ADPCMB_CALC hostCfg c7wPre).map (fun p => decide (p.1.now_addr < 2 ^ 25)) =
      some true := by
  refine ⟨by decide, by decide, ?_⟩
  match hEq : ADPCMB_CALC hostCfg c7wPre with
  | none => exact absurd hEq (by decide)
  | some (s', evs) =>
    have h := c7_amended hostCfg c7wPre s' evs (by decide) (by decide) hEq
    have h2 : s'.now_addr < 33554432 := by simpa using h
    simp [h2]

theorem decodeUpdate_bounds (data : Nat) (acc adpcmd : Int) :
    -32768 ≤ (decodeUpdate data acc adpcmd).1 ∧ (decodeUpdate data acc adpcmd).1 ≤ 32767 ∧
    127 ≤ (decodeUpdate data acc adpcmd).2 ∧ (decodeUpdate data acc adpcmd).2 ≤ 24576 := by
  unfold decodeUpdate YM_DELTAT_Limit
  split_ifs <;> constructor <;> omega

theorem decodeTail_inv (m d : Nat) (s : YM_DELTAT) (h : UnitInv s) :
    UnitInv (decodeTail m d s) := by
  obtain ⟨-, hp⟩ := h
  exact ⟨decodeUpdate_bounds d s.acc s.adpcmd, hp⟩

theorem extNibble_inv (cfg : YM_DELTAT_CFG) (s t : YM_DELTAT)
    (hn : extNibble cfg s = some t) (h : UnitInv s) : UnitInv t := by
  unfold extNibble at hn
  split_ifs at hn
  · injection hn with hn
    subst hn
    exact decodeTail_inv _ _ _ h
  · cases hm : cfg.read_byte with
    | none => rw [hm] at hn; cases hn
    | some mem =>
      rw [hm] at hn
      injection hn with hn
      subst hn
      exact decodeTail_inv _ _ _ ⟨h.1, h.2⟩

theorem extLoop_inv (cfg : YM_DELTAT_CFG) :
    ∀ (k : Nat) (s s' : YM_DELTAT) (evs : List Event) (early : Bool),
      UnitInv s → extLoop cfg k s = some (s', evs, early) → UnitInv s' := by
  intro k
  induction k with
  | zero =>
    intro s s' evs early h hl
    rw [extLoop] at hl
    injection hl with hl
    injection hl with h1 h2
    subst h1
    exact h
  | succ n ih =>
    intro s s' evs early h hl
    simp only [extLoop] at hl
    have h1 : UnitInv (if s.now_addr = u32 (2 * s.limit) then { s with now_addr := 0 }
        else s) := by
      split_ifs
      · exact ⟨h.1, h.2⟩
      · exact h
    generalize hg : (if s.now_addr = u32 (2 * s.limit) then { s with now_addr := 0 } else s) = s1 at hl h1
    by_cases hend : s1.now_addr = u32 (2 * s1.end_)
    · rw [if_pos hend] at hl
      by_cases hrep : s1.portstate &&& 16 ≠ 0
      · rw [if_pos hrep] at hl
        cases hn : (extNibble cfg { s1 with now_addr := u32 (2 * s1.start), acc := 0, adpcmd := 127, prev_acc := 0 }) with
        | none => rw [hn] at hl; cases hl
        | some t =>
          rw [hn] at hl
          refine ih t s' evs early (extNibble_inv cfg _ t hn ?_) hl
          exact ⟨by norm_num, h1.2⟩
      · rw [if_neg hrep] at hl
        injection hl with hl
        injection hl with hx h2
        subst hx
        exact ⟨h1.1, Or.inl rfl⟩
    · rw [if_neg hend] at hl
      cases hn : (extNibble cfg s1) with
      | none => rw [hn] at hl; cases hl
      | some t =>
        rw [hn] at hl
        exact ih t s' evs early (extNibble_inv cfg s1 t hn h1) hl

theorem cpuLoop_inv (cfg : YM_DELTAT_CFG) :
    ∀ (k : Nat) (s : YM_DELTAT), UnitInv s → UnitInv (cpuLoop cfg k s).1 := by
  intro k
  induction k with
  | zero => exact fun s h => h
  | succ n ih =>
    intro s h
    simp only [cpuLoop]
    split_ifs <;> exact ih _ (decodeTail_inv _ _ _ ⟨h.1, h.2⟩)

theorem interpOut_inv (s : YM_DELTAT) (h : UnitInv s) : UnitInv (interpOut s) :=
  ⟨h.1, h.2⟩

theorem calc_inv (cfg : YM_DELTAT_CFG) (s s' : YM_DELTAT) (evs : List Event)
    (h : UnitInv s) (hc : ADPCMB_CALC cfg s = some (s', evs)) : UnitInv s' := by
  unfold ADPCMB_CALC at hc
  split_ifs at hc
  · simp only [YM_DELTAT_synthesis_from_external_memory] at hc
    by_cases hns : 65536 ≤ u32 (s.now_step + s.step)
    · rw [if_pos hns] at hc
      cases hl : (extLoop cfg (u32 (s.now_step + s.step) >>> 16) { s with now_step := u32 (s.now_step + s.step) &&& 65535 }) with
      | none => rw [hl] at hc; cases hc
      | some res =>
        obtain ⟨s2, levs, early⟩ := res
        rw [hl] at hc
        have h2 := extLoop_inv cfg (u32 (s.now_step + s.step) >>> 16)
          { s with now_step := u32 (s.now_step + s.step) &&& 65535 } s2 levs early
          ⟨h.1, h.2⟩ hl
        cases early with
        | false =>
          simp only [Bool.false_eq_true, if_false] at hc
          injection hc with hc
          injection hc with hx _
          subst hx
          exact interpOut_inv s2 h2
        | true =>
          simp only [if_true] at hc
          injection hc with hc
          injection hc with hx _
          subst hx
          exact h2
    · rw [if_neg hns] at hc
      injection hc with hc
      injection hc with hx _
      subst hx
      exact interpOut_inv _ ⟨h.1, h.2⟩
  · injection hc with hc
    have hx := congrArg Prod.fst hc
    simp only at hx
    rw [← hx]
    show UnitInv (YM_DELTAT_synthesis_from_CPU_memory cfg s).1
    simp only [YM_DELTAT_synthesis_from_CPU_memory]
    split_ifs
    · exact interpOut_inv _ (cpuLoop_inv cfg _ _ ⟨h.1, h.2⟩)
    · exact interpOut_inv _ ⟨h.1, h.2⟩
  · injection hc with hc
    injection hc with hx _
    subst hx
    exact h

theorem writeReg0_inv (cfg : YM_DELTAT_CFG) (s : YM_DELTAT) (lv : Nat) (hlv : lv < 256)
    (h : UnitInv s) : UnitInv (writeReg0 cfg s lv).1 := by
  have h5 := reg0_portstate_bit5 lv hlv
  have h6 := reg0_portstate_bit6 lv hlv
  simp only [writeReg0]
  split_ifs <;> refine ⟨?_, ?_⟩ <;>
    (first
      | exact h.1
      | exact Or.inr ⟨h5, h6⟩
      | exact Or.inl rfl
      | norm_num)

theorem writeCases_acc (cfg : YM_DELTAT_CFG) (s : YM_DELTAT) (rn lv : Nat) (h : rn ≠ 0) :
    (writeCases cfg s rn lv).1.acc = s.acc ∧ (writeCases cfg s rn lv).1.adpcmd = s.adpcmd := by
  unfold writeCases
  rw [if_neg h]
  split_ifs
  · simp only [writeReg1]; split_ifs <;> exact ⟨rfl, rfl⟩
  · exact ⟨rfl, rfl⟩
  · exact ⟨rfl, rfl⟩
  · simp only [writeReg8]; split_ifs <;> exact ⟨rfl, rfl⟩
  · exact ⟨rfl, rfl⟩
  · simp only [writeRegB]; split_ifs <;> exact ⟨rfl, rfl⟩
  · exact ⟨rfl, rfl⟩
  · exact ⟨rfl, rfl⟩

theorem write_inv (cfg : YM_DELTAT_CFG) (s : YM_DELTAT) (r v : Int) (s' : YM_DELTAT)
    (evs : List Event) (h : UnitInv s) (hw : ADPCMB_write cfg s r v = some (s', evs)) :
    UnitInv s' := by
  unfold ADPCMB_write at hw
  by_cases h16 : 16 ≤ r
  · rw [if_pos h16] at hw
    injection hw with hw
    injection hw with hx _
    subst hx
    exact h
  · by_cases hneg : r < 0
    · rw [if_neg h16, if_pos hneg] at hw; cases hw
    · rw [if_neg h16, if_neg hneg] at hw
      injection hw with hw
      have hfst := congrArg Prod.fst hw
      simp only at hfst
      rw [← hfst]
      by_cases h0 : r.toNat = 0
      · rw [show writeCases cfg { s with reg := s.reg.set r.toNat (lowByte v) } r.toNat
            (lowByte v) = writeCases cfg { s with reg := s.reg.set r.toNat (lowByte v) } 0
            (lowByte v) by rw [h0]]
        unfold writeCases
        rw [if_pos rfl]
        exact writeReg0_inv cfg _ _ (lowByte_lt v) ⟨h.1, h.2⟩
      · obtain ⟨ha, hd⟩ := writeCases_acc cfg { s with reg := s.reg.set r.toNat (lowByte v) }
          r.toNat (lowByte v) h0
        have hp := writeCases_portstate cfg { s with reg := s.reg.set r.toNat (lowByte v) }
          r.toNat (lowByte v) h0
        constructor
        · rw [ha, hd]
          exact h.1
        · rw [hp]
          exact h.2

theorem read_inv (cfg : YM_DELTAT_CFG) (s : YM_DELTAT) (r : Nat) (s' : YM_DELTAT)
    (evs : List Event) (h : UnitInv s) (hr : ADPCMB_read cfg s = some (r, s', evs)) :
    UnitInv s' := by
  unfold ADPCMB_read at hr
  split_ifs at hr
  · injection hr with hr
    injection hr with _ hr
    injection hr with hx _
    subst hx
    exact ⟨h.1, h.2⟩
  · cases hm : cfg.read_byte with
    | none => rw [hm] at hr; cases hr
    | some mem =>
      rw [hm] at hr
      injection hr with hr
      injection hr with _ hr
      injection hr with hx _
      subst hx
      exact ⟨h.1, h.2⟩
  · injection hr with hr
    injection hr with _ hr
    injection hr with hx _
    subst hx
    exact h
  · injection hr with hr
    injection hr with _ hr
    injection hr with hx _
    subst hx
    exact h

theorem reset_inv (cfg : YM_DELTAT_CFG) (p : Nat) (s : YM_DELTAT) :
    UnitInv (ADPCMB_reset cfg p s).1 :=
  ⟨⟨show (-32768 : Int) ≤ 0 by norm_num, show (0 : Int) ≤ 32767 by norm_num,
    show (127 : Int) ≤ 127 from le_refl _, show (127 : Int) ≤ 24576 by norm_num⟩,
   Or.inr ⟨show (32 : Nat) &&& 32 = 32 by decide, show (32 : Nat) &&& 64 = 0 by decide⟩⟩

theorem postloadReplay_inv (cfg : YM_DELTAT_CFG) (regs : List Nat) :
    ∀ (k idx : Nat) (s s' : YM_DELTAT) (evs : List Event),
      UnitInv s → postloadReplay cfg regs k idx s = some (s', evs) → UnitInv s' := by
  intro k
  induction k with
  | zero =>
    intro idx s s' evs h hr
    rw [postloadReplay] at hr
    injection hr with hr
    injection hr with hx _
    subst hx
    exact h
  | succ n ih =>
    intro idx s s' evs h hr
    rw [postloadReplay] at hr
    cases hw : (ADPCMB_write cfg s (idx : Int) ((regs.getD idx 0 % 256 : Nat) : Int)) with
    | none => rw [hw] at hr; cases hr
    | some p1 =>
      obtain ⟨s1, e1⟩ := p1
      rw [hw] at hr
      simp only at hr
      have h1 := write_inv cfg s _ _ s1 e1 h hw
      cases hrr : (postloadReplay cfg regs n (idx + 1) s1) with
      | none => rw [hrr] at hr; cases hr
      | some p2 =>
        obtain ⟨s2, e2⟩ := p2
        rw [hrr] at hr
        injection hr with hr
        injection hr with hx _
        subst hx
        exact ih (idx + 1) s1 s2 e2 h1 hrr

theorem postload_inv (cfg : YM_DELTAT_CFG) (s : YM_DELTAT) (regs : List Nat)
    (s' : YM_DELTAT) (evs : List Event) (h : UnitInv s)
    (hp : ADPCMB_postload cfg s regs = some (s', evs)) : UnitInv s' := by
  unfold ADPCMB_postload at hp
  cases hrr : (postloadReplay cfg regs 15 1 { s with volume := 0 }) with
  | none => rw [hrr] at hp; cases hp
  | some p1 =>
    obtain ⟨s1, e1⟩ := p1
    rw [hrr] at hp
    have h1 := postloadReplay_inv cfg regs 15 1 { s with volume := 0 } s1 e1 ⟨h.1, h.2⟩ hrr
    cases hm : cfg.read_byte with
    | none => rw [hm] at hp; cases hp
    | some mem =>
      rw [hm] at hp
      injection hp with hp
      injection hp with hx _
      subst hx
      exact ⟨h1.1, h1.2⟩

theorem applyOp_inv (cfg : YM_DELTAT_CFG) (s : YM_DELTAT) (op : Op) (s' : YM_DELTAT)
    (evs : List Event) (h : UnitInv s) (ha : applyOp cfg s op = some (s', evs)) :
    UnitInv s' := by
  cases op with
  | write r v => exact write_inv cfg s r v s' evs h ha
  | read =>
    simp only [applyOp] at ha
    cases hr : (ADPCMB_read cfg s) with
    | none => rw [hr] at ha; cases ha
    | some p1 =>
      obtain ⟨r1, s1, e1⟩ := p1
      rw [hr] at ha
      injection ha with ha
      injection ha with hx _
      subst hx
      exact read_inv cfg s r1 s1 e1 h hr
  | tick => exact calc_inv cfg s s' evs h ha
  | reset p =>
    simp only [applyOp] at ha
    injection ha with ha
    have hx := congrArg Prod.fst ha
    simp only at hx
    rw [← hx]
    exact reset_inv cfg p s
  | postload regs => exact postload_inv cfg s regs s' evs h ha

theorem runOps_inv (cfg : YM_DELTAT_CFG) :
    ∀ (ops : List Op) (s s' : YM_DELTAT), UnitInv s → runOps cfg s ops = some s' →
      UnitInv s' := by
  intro ops
  induction ops with
  | nil =>
    intro s s' h hr
    rw [runOps] at hr
    injection hr with hr
    subst hr
    exact h
  | cons op rest ih =>
    intro s s' h hr
    rw [runOps] at hr
    cases ha : (applyOp cfg s op) with
    | none => rw [ha] at hr; cases hr
    | some p1 =>
      obtain ⟨s1, e1⟩ := p1
      rw [ha] at hr
      exact ih s1 s' (applyOp_inv cfg s op s1 e1 h ha) hr

theorem portOk_ne_cpu (s : YM_DELTAT)
    (h : s.portstate = 0 ∨ (s.portstate &&& 0x20 = 0x20 ∧ s.portstate &&& 0x40 = 0)) :
    s.portstate &&& 0xe0 ≠ 0x80 := by
  rcases h with h0 | ⟨h20, h40⟩
  · rw [h0]; decide
  · intro hc
    have h2 : s.portstate &&& 224 &&& 32 = 128 &&& 32 := by rw [hc]
    rw [Nat.and_assoc] at h2
    rw [show (224 : Nat) &&& 32 = 32 by decide] at h2
    rw [show (128 : Nat) &&& 32 = 0 by decide] at h2
    rw [h20] at h2
    cases h2

/-! ### Claims C1 and C10 -/

/-- Claim C1: after every individual ADPCM decode step the predictor lies
in [-32768, 32767] and the adaptive step size in [127, 24576] — the decode
update clamps both unconditionally, for any input pair (first conjunct);
and both bounds hold in every state of the unit reachable from reset by
any sequence of host operations (register writes, decode ticks, reads,
resets, restores), so in particular for every sequence of decode ticks on
nibbles from either source (second conjunct). -/
theorem c1_decode_bounds :
    (∀ (data : Nat) (acc adpcmd : Int),
      -32768 ≤ (decodeUpdate data acc adpcmd).1 ∧ (decodeUpdate data acc adpcmd).1 ≤ 32767 ∧
      127 ≤ (decodeUpdate data acc adpcmd).2 ∧ (decodeUpdate data acc adpcmd).2 ≤ 24576) ∧
    (∀ (cfg : YM_DELTAT_CFG) (p : Nat) (s0 : YM_DELTAT) (ops : List Op) (s : YM_DELTAT),
      runOps cfg (ADPCMB_reset cfg p s0).1 ops = some s →
      -32768 ≤ s.acc ∧ s.acc ≤ 32767 ∧ 127 ≤ s.adpcmd ∧ s.adpcmd ≤ 24576) :=
  ⟨decodeUpdate_bounds,
   fun cfg p s0 ops s hrun =>
     (runOps_inv cfg ops (ADPCMB_reset cfg p s0).1 s (reset_inv cfg p s0) hrun).1⟩

theorem c1_witness :
    (runOps hostCfg (ADPCMB_reset hostCfg 0 YM_DELTAT.init).1
        [Op.write 0 128, Op.tick, Op.tick]).map
      (fun s => decide (-32768 ≤ s.acc ∧ s.acc ≤ 32767 ∧
        127 ≤ s.adpcmd ∧ s.adpcmd ≤ 24576)) = some true := by
  match hEq : runOps hostCfg (ADPCMB_reset hostCfg 0 YM_DELTAT.init).1
      [Op.write 0 128, Op.tick, Op.tick] with
  | none => exact absurd hEq (by decide)
  | some s =>
    have h := c1_decode_bounds.2 hostCfg 0 YM_DELTAT.init
      [Op.write 0 128, Op.tick, Op.tick] s hEq
    simp [h.1, h.2.1, h.2.2.1, h.2.2.2]

/-- Claim C10: in every state reachable from reset, `portstate` is either 0
or has the external-memory bit 0x20 set and the record bit 0x40 clear (the
register-0 write path forces `v |= 0x20; v &= ~0x40` before decoding), and
consequently `(portstate & 0xe0) == 0x80` never holds — the guard of both
the CPU-fed synthesis branch of `ADPCMB_CALC` and the CPU-data latch
branch of the data-register write, so neither branch is ever executed. -/
theorem c10_portstate_invariant (cfg : YM_DELTAT_CFG) (p : Nat) (s0 : YM_DELTAT)
    (ops : List Op) (s : YM_DELTAT)
    (hrun : runOps cfg (ADPCMB_reset cfg p s0).1 ops = some s) :
    (s.portstate = 0 ∨ (s.portstate &&& 0x20 = 0x20 ∧ s.portstate &&& 0x40 = 0)) ∧
    s.portstate &&& 0xe0 ≠ 0x80 := by
  have h := (runOps_inv cfg ops (ADPCMB_reset cfg p s0).1 s (reset_inv cfg p s0) hrun).2
  exact ⟨h, portOk_ne_cpu s h⟩

theorem c10_witness :
    (runOps hostCfg (ADPCMB_reset hostCfg 0 YM_DELTAT.init).1
        [Op.write 0 128, Op.tick, Op.read, Op.write 1 193]).map
      (fun s => decide ((s.portstate = 0 ∨
        (s.portstate &&& 0x20 = 0x20 ∧ s.portstate &&& 0x40 = 0)) ∧
        s.portstate &&& 0xe0 ≠ 0x80)) = some true := by
  match hEq : runOps hostCfg (ADPCMB_reset hostCfg 0 YM_DELTAT.init).1
      [Op.write 0 128, Op.tick, Op.read, Op.write 1 193] with
  | none => exact absurd hEq (by decide)
  | some s =>
    have h := c10_portstate_invariant hostCfg 0 YM_DELTAT.init
      [Op.write 0 128, Op.tick, Op.read, Op.write 1 193] s hEq
    simp only [Option.map, decide_eq_true_eq]
    exact congrArg some (decide_eq_true h)

/-! ### Claim C4 -/

theorem getD_set_ne (l : List Nat) (i j x : Nat) (h : i ≠ j) :
    (l.set i x).getD j 0 = l.getD j 0 := by
  simp [List.getD_eq_getElem?_getD, List.getElem?_set_ne h]

theorem getD_set_self (l : List Nat) (i x : Nat) (h : i < l.length) :
    (l.set i x).getD i 0 = x := by
  simp [List.getD_eq_getElem?_getD, List.getElem?_set_self h]

/-- The forced `v |= 0x01` of the mode register keeps the memory-type index
odd, and both odd entries of `dram_rightshift` are 0: the DRAM shift can
never change from its reset value 0 on this chip. -/
theorem dram_or_one (x : Nat) : dram_rightshift.getD ((x ||| 1) &&& 3) 0 = 0 := by
  have h4 : (x ||| 1) &&& 3 < 4 := Nat.and_lt_two_pow _ (show (3 : Nat) < 2 ^ 2 by norm_num)
  have hbit : ((x ||| 1) &&& 3).testBit 0 = true := by
    rw [Nat.testBit_land, Nat.testBit_lor]
    rw [show Nat.testBit 1 0 = true from rfl, show Nat.testBit 3 0 = true from rfl]
    simp
  rw [Nat.testBit_zero] at hbit
  have hmod : ((x ||| 1) &&& 3) % 2 = 1 := of_decide_eq_true hbit
  have h13 : (x ||| 1) &&& 3 = 1 ∨ (x ||| 1) &&& 3 = 3 := by omega
  rcases h13 with h | h <;> rw [h] <;> rfl

theorem derivedOK_reset (cfg : YM_DELTAT_CFG) (hz : cfg.stepOf 0 = 0) :
    derivedOK cfg (ADPCMB_reset cfg 0 YM_DELTAT.init).1 := by
  refine ⟨rfl, fun i => ?_, rfl, ?_, ?_, ?_, ?_, ?_, ?_⟩
  · show (List.replicate 16 0).getD i 0 < 256
    rw [List.getD_eq_getElem?_getD, List.getElem?_replicate]
    split_ifs <;> decide
  · show (0 : Nat) = dStart (List.replicate 16 0) cfg.portshift
    simp [dStart, u32, Nat.zero_shiftLeft]
  · show (0 : Nat) = dDelta (List.replicate 16 0)
    decide
  · show (0 : Nat) = u32 (cfg.stepOf 0)
    rw [hz]
    rfl
  · show (0 : Int) = dVol cfg 0
    simp [dVol]
  · show (1 : Nat) = (List.replicate 16 0).getD 1 0 ||| 1
    decide
  · show (0 : Nat) = (((List.replicate 16 0).getD 1 0 ||| 1) >>> 6) &&& 3
    decide

theorem dStart_set (l : List Nat) (rn x sh : Nat) (h2 : rn ≠ 2) (h3 : rn ≠ 3) :
    dStart (l.set rn x) sh = dStart l sh := by
  unfold dStart
  rw [getD_set_ne l rn 3 x h3, getD_set_ne l rn 2 x h2]

theorem dDelta_set (l : List Nat) (rn x : Nat) (h9 : rn ≠ 9) (hA : rn ≠ 10) :
    dDelta (l.set rn x) = dDelta l := by
  unfold dDelta
  rw [getD_set_ne l rn 10 x hA, getD_set_ne l rn 9 x h9]

theorem setReg_regsOK (s : YM_DELTAT) (rn lv : Nat)
    (hlen : s.reg.length = 16) (hall : ∀ i, s.reg.getD i 0 < 256) (hlv : lv < 256) :
    (s.reg.set rn lv).length = 16 ∧ (∀ i, (s.reg.set rn lv).getD i 0 < 256) := by
  refine ⟨by rw [List.length_set]; exact hlen, fun i => ?_⟩
  by_cases hi : rn = i
  · subst hi
    by_cases hr : rn < s.reg.length
    · rw [getD_set_self s.reg rn lv hr]; exact hlv
    · rw [List.set_eq_of_length_le (by omega)]
      exact hall rn
  · rw [getD_set_ne s.reg rn i lv hi]; exact hall i

theorem writeReg0_keeps (cfg : YM_DELTAT_CFG) (t : YM_DELTAT) (lv : Nat) :
    (writeReg0 cfg t lv).1.reg = t.reg ∧ (writeReg0 cfg t lv).1.DRAMportshift = t.DRAMportshift ∧
    (writeReg0 cfg t lv).1.start = t.start ∧ (writeReg0 cfg t lv).1.delta = t.delta ∧
    (writeReg0 cfg t lv).1.step = t.step ∧ (writeReg0 cfg t lv).1.volume = t.volume ∧
    (writeReg0 cfg t lv).1.control2 = t.control2 ∧ (writeReg0 cfg t lv).1.panIdx = t.panIdx := by
  simp only [writeReg0]
  split_ifs <;> exact ⟨rfl, rfl, rfl, rfl, rfl, rfl, rfl, rfl⟩

theorem writeReg8_keeps (cfg : YM_DELTAT_CFG) (t : YM_DELTAT) (lv : Nat) :
    (writeReg8 cfg t lv).1.reg = t.reg ∧ (writeReg8 cfg t lv).1.DRAMportshift = t.DRAMportshift ∧
    (writeReg8 cfg t lv).1.start = t.start ∧ (writeReg8 cfg t lv).1.delta = t.delta ∧
    (writeReg8 cfg t lv).1.step = t.step ∧ (writeReg8 cfg t lv).1.volume = t.volume ∧
    (writeReg8 cfg t lv).1.control2 = t.control2 ∧ (writeReg8 cfg t lv).1.panIdx = t.panIdx := by
  simp only [writeReg8]
  split_ifs <;> exact ⟨rfl, rfl, rfl, rfl, rfl, rfl, rfl, rfl⟩

theorem writeRegB_keeps (cfg : YM_DELTAT_CFG) (t : YM_DELTAT) (lv : Nat) :
    (writeRegB cfg t lv).1.reg = t.reg ∧ (writeRegB cfg t lv).1.DRAMportshift = t.DRAMportshift ∧
    (writeRegB cfg t lv).1.start = t.start ∧ (writeRegB cfg t lv).1.delta = t.delta ∧
    (writeRegB cfg t lv).1.step = t.step ∧ (writeRegB cfg t lv).1.volume = dVol cfg lv ∧
    (writeRegB cfg t lv).1.control2 = t.control2 ∧ (writeRegB cfg t lv).1.panIdx = t.panIdx := by
  simp only [writeRegB]
  split_ifs <;> exact ⟨rfl, rfl, rfl, rfl, rfl, rfl, rfl, rfl⟩

theorem derivedOK_writeCases (cfg : YM_DELTAT_CFG) (s : YM_DELTAT) (rn lv : Nat)
    (hlvlt : lv < 256) (h : derivedOK cfg s) :
    derivedOK cfg (writeCases cfg { s with reg := s.reg.set rn lv } rn lv).1 := by
  obtain ⟨hlen, hall, hdrs, hstart, hdelta, hstep, hvol, hc2, hpan⟩ := h
  obtain ⟨hlen', hall'⟩ := setReg_regsOK s rn lv hlen hall hlvlt
  unfold writeCases
  by_cases h0 : rn = 0
  · subst h0
    rw [if_pos rfl]
    obtain ⟨k1, k2, k3, k4, k5, k6, k7, k8⟩ :=
      writeReg0_keeps cfg { s with reg := s.reg.set 0 lv } lv
    refine ⟨by rw [k1]; exact hlen', fun i => by rw [k1]; exact hall' i,
      by rw [k2]; exact hdrs, ?_, ?_, ?_, ?_, ?_, ?_⟩
    · rw [k3, k1]
      show s.start = _
      rw [dStart_set s.reg 0 lv _ (by omega) (by omega), hstart]
    · rw [k4, k1]
      show s.delta = _
      rw [dDelta_set s.reg 0 lv (by omega) (by omega), hdelta]
    · rw [k5, k4]
      exact hstep
    · rw [k6, k1]
      show s.volume = _
      rw [getD_set_ne s.reg 0 11 lv (by omega), hvol]
    · rw [k7, k1]
      show s.control2 = _
      rw [getD_set_ne s.reg 0 1 lv (by omega), hc2]
    · rw [k8, k1]
      show s.panIdx = _
      rw [getD_set_ne s.reg 0 1 lv (by omega), hpan]
  rw [if_neg h0]
  by_cases h1 : rn = 1
  · subst h1
    rw [if_pos rfl]
    simp only [writeReg1]
    split_ifs with houter hinner
    · exfalso
      apply hinner
      show s.DRAMportshift = _
      rw [hdrs, dram_or_one lv]
    · refine ⟨hlen', hall', hdrs, ?_, ?_, hstep, ?_, ?_, ?_⟩
      · show s.start = _
        rw [dStart_set s.reg 1 lv _ (by omega) (by omega), hstart]
      · show s.delta = _
        rw [dDelta_set s.reg 1 lv (by omega) (by omega), hdelta]
      · show s.volume = _
        rw [getD_set_ne s.reg 1 11 lv (by omega), hvol]
      · show lv ||| 1 = _
        rw [getD_set_self s.reg 1 lv (by omega)]
      · show (lv ||| 1) >>> 6 &&& 3 = _
        rw [getD_set_self s.reg 1 lv (by omega)]
    · refine ⟨hlen', hall', hdrs, ?_, ?_, hstep, ?_, ?_, ?_⟩
      · show s.start = _
        rw [dStart_set s.reg 1 lv _ (by omega) (by omega), hstart]
      · show s.delta = _
        rw [dDelta_set s.reg 1 lv (by omega) (by omega), hdelta]
      · show s.volume = _
        rw [getD_set_ne s.reg 1 11 lv (by omega), hvol]
      · show lv ||| 1 = _
        rw [getD_set_self s.reg 1 lv (by omega)]
      · show (lv ||| 1) >>> 6 &&& 3 = _
        rw [getD_set_self s.reg 1 lv (by omega)]
  rw [if_neg h1]
  by_cases h23 : rn = 2 ∨ rn = 3
  · rw [if_pos h23]
    refine ⟨hlen', hall', hdrs, ?_, ?_, hstep, ?_, ?_, ?_⟩
    · show dStart (s.reg.set rn lv) (cfg.portshift - s.DRAMportshift) = _
      rw [hdrs]
      rfl
    · show s.delta = _
      rw [dDelta_set s.reg rn lv (by omega) (by omega), hdelta]
    · show s.volume = _
      rw [getD_set_ne s.reg rn 11 lv (by omega), hvol]
    · show s.control2 = _
      rw [getD_set_ne s.reg rn 1 lv (by omega), hc2]
    · show s.panIdx = _
      rw [getD_set_ne s.reg rn 1 lv (by omega), hpan]
  rw [if_neg h23]
  by_cases h45 : rn = 4 ∨ rn = 5
  · rw [if_pos h45]
    refine ⟨hlen', hall', hdrs, ?_, ?_, hstep, ?_, ?_, ?_⟩
    · show s.start = _
      rw [dStart_set s.reg rn lv _ (by omega) (by omega), hstart]
    · show s.delta = _
      rw [dDelta_set s.reg rn lv (by omega) (by omega), hdelta]
    · show s.volume = _
      rw [getD_set_ne s.reg rn 11 lv (by omega), hvol]
    · show s.control2 = _
      rw [getD_set_ne s.reg rn 1 lv (by omega), hc2]
    · show s.panIdx = _
      rw [getD_set_ne s.reg rn 1 lv (by omega), hpan]
  rw [if_neg h45]
  by_cases h8 : rn = 8
  · subst h8
    rw [if_pos rfl]
    obtain ⟨k1, k2, k3, k4, k5, k6, k7, k8⟩ :=
      writeReg8_keeps cfg { s with reg := s.reg.set 8 lv } lv
    refine ⟨by rw [k1]; exact hlen', fun i => by rw [k1]; exact hall' i,
      by rw [k2]; exact hdrs, ?_, ?_, ?_, ?_, ?_, ?_⟩
    · rw [k3, k1]
      show s.start = _
      rw [dStart_set s.reg 8 lv _ (by omega) (by omega), hstart]
    · rw [k4, k1]
      show s.delta = _
      rw [dDelta_set s.reg 8 lv (by omega) (by omega), hdelta]
    · rw [k5, k4]
      exact hstep
    · rw [k6, k1]
      show s.volume = _
      rw [getD_set_ne s.reg 8 11 lv (by omega), hvol]
    · rw [k7, k1]
      show s.control2 = _
      rw [getD_set_ne s.reg 8 1 lv (by omega), hc2]
    · rw [k8, k1]
      show s.panIdx = _
      rw [getD_set_ne s.reg 8 1 lv (by omega), hpan]
  rw [if_neg h8]
  by_cases h9A : rn = 9 ∨ rn = 10
  · rw [if_pos h9A]
    refine ⟨hlen', hall', hdrs, ?_, rfl, rfl, ?_, ?_, ?_⟩
    · show s.start = _
      rw [dStart_set s.reg rn lv _ (by omega) (by omega), hstart]
    · show s.volume = _
      rw [getD_set_ne s.reg rn 11 lv (by omega), hvol]
    · show s.control2 = _
      rw [getD_set_ne s.reg rn 1 lv (by omega), hc2]
    · show s.panIdx = _
      rw [getD_set_ne s.reg rn 1 lv (by omega), hpan]
  rw [if_neg h9A]
  by_cases hB : rn = 11
  · subst hB
    rw [if_pos rfl]
    obtain ⟨k1, k2, k3, k4, k5, k6, k7, k8⟩ :=
      writeRegB_keeps cfg { s with reg := s.reg.set 11 lv } lv
    refine ⟨by rw [k1]; exact hlen', fun i => by rw [k1]; exact hall' i,
      by rw [k2]; exact hdrs, ?_, ?_, ?_, ?_, ?_, ?_⟩
    · rw [k3, k1]
      show s.start = _
      rw [dStart_set s.reg 11 lv _ (by omega) (by omega), hstart]
    · rw [k4, k1]
      show s.delta = _
      rw [dDelta_set s.reg 11 lv (by omega) (by omega), hdelta]
    · rw [k5, k4]
      exact hstep
    · rw [k6, k1]
      rw [getD_set_self s.reg 11 lv (by omega)]
    · rw [k7, k1]
      show s.control2 = _
      rw [getD_set_ne s.reg 11 1 lv (by omega), hc2]
    · rw [k8, k1]
      show s.panIdx = _
      rw [getD_set_ne s.reg 11 1 lv (by omega), hpan]
  rw [if_neg hB]
  by_cases hCD : rn = 12 ∨ rn = 13
  · rw [if_pos hCD]
    refine ⟨hlen', hall', hdrs, ?_, ?_, hstep, ?_, ?_, ?_⟩
    · show s.start = _
      rw [dStart_set s.reg rn lv _ (by omega) (by omega), hstart]
    · show s.delta = _
      rw [dDelta_set s.reg rn lv (by omega) (by omega), hdelta]
    · show s.volume = _
      rw [getD_set_ne s.reg rn 11 lv (by omega), hvol]
    · show s.control2 = _
      rw [getD_set_ne s.reg rn 1 lv (by omega), hc2]
    · show s.panIdx = _
      rw [getD_set_ne s.reg rn 1 lv (by omega), hpan]
  rw [if_neg hCD]
  refine ⟨hlen', hall', hdrs, ?_, ?_, hstep, ?_, ?_, ?_⟩
  · show s.start = _
    rw [dStart_set s.reg rn lv _ (by omega) (by omega), hstart]
  · show s.delta = _
    rw [dDelta_set s.reg rn lv (by omega) (by omega), hdelta]
  · show s.volume = _
    rw [getD_set_ne s.reg rn 11 lv (by omega), hvol]
  · show s.control2 = _
    rw [getD_set_ne s.reg rn 1 lv (by omega), hc2]
  · show s.panIdx = _
    rw [getD_set_ne s.reg rn 1 lv (by omega), hpan]

theorem dEnd_set (l : List Nat) (rn x sh : Nat) (h4 : rn ≠ 4) (h5 : rn ≠ 5) :
    dEnd (l.set rn x) sh = dEnd l sh := by
  unfold dEnd
  rw [getD_set_ne l rn 5 x h5, getD_set_ne l rn 4 x h4]

theorem dLimit_set (l : List Nat) (rn x sh : Nat) (hc : rn ≠ 12) (hd : rn ≠ 13) :
    dLimit (l.set rn x) sh = dLimit l sh := by
  unfold dLimit
  rw [getD_set_ne l rn 13 x hd, getD_set_ne l rn 12 x hc]

theorem writeCases_reg (cfg : YM_DELTAT_CFG) (t : YM_DELTAT) (rn lv : Nat) :
    (writeCases cfg t rn lv).1.reg = t.reg := by
  unfold writeCases
  split_ifs
  · exact (writeReg0_keeps cfg t lv).1
  · simp only [writeReg1]; split_ifs <;> rfl
  · rfl
  · rfl
  · exact (writeReg8_keeps cfg t lv).1
  · rfl
  · exact (writeRegB_keeps cfg t lv).1
  · rfl
  · rfl

theorem writeReg0_endlimit (cfg : YM_DELTAT_CFG) (t : YM_DELTAT) (lv : Nat) :
    (writeReg0 cfg t lv).1.end_ = t.end_ ∧ (writeReg0 cfg t lv).1.limit = t.limit := by
  simp only [writeReg0]
  split_ifs <;> exact ⟨rfl, rfl⟩

theorem writeReg1_endlimit (cfg : YM_DELTAT_CFG) (t : YM_DELTAT) (lv : Nat)
    (hdrs : t.DRAMportshift = 0) :
    (writeReg1 cfg t lv).1.end_ = t.end_ ∧ (writeReg1 cfg t lv).1.limit = t.limit := by
  simp only [writeReg1]
  split_ifs with ho hi
  · exfalso
    apply hi
    show t.DRAMportshift = _
    rw [hdrs, dram_or_one lv]
  · exact ⟨rfl, rfl⟩
  · exact ⟨rfl, rfl⟩

theorem writeReg8_endlimit (cfg : YM_DELTAT_CFG) (t : YM_DELTAT) (lv : Nat) :
    (writeReg8 cfg t lv).1.end_ = t.end_ ∧ (writeReg8 cfg t lv).1.limit = t.limit := by
  simp only [writeReg8]
  split_ifs <;> exact ⟨rfl, rfl⟩

theorem writeRegB_endlimit (cfg : YM_DELTAT_CFG) (t : YM_DELTAT) (lv : Nat) :
    (writeRegB cfg t lv).1.end_ = t.end_ ∧ (writeRegB cfg t lv).1.limit = t.limit := by
  simp only [writeRegB]
  split_ifs <;> exact ⟨rfl, rfl⟩

theorem endOK_writeCases (cfg : YM_DELTAT_CFG) (s : YM_DELTAT) (rn lv : Nat)
    (hdrs : s.DRAMportshift = 0)
    (hend : s.end_ = dEnd s.reg cfg.portshift) :
    (writeCases cfg { s with reg := s.reg.set rn lv } rn lv).1.end_ =
      dEnd (s.reg.set rn lv) cfg.portshift := by
  unfold writeCases
  by_cases h45 : rn = 4 ∨ rn = 5
  · rw [if_neg (by omega), if_neg (by omega), if_neg (by omega), if_pos h45]
    show dEnd (s.reg.set rn lv) (cfg.portshift - s.DRAMportshift) = _
    rw [hdrs, Nat.sub_zero]
  · have hde : dEnd (s.reg.set rn lv) cfg.portshift = dEnd s.reg cfg.portshift :=
      dEnd_set s.reg rn lv _ (by omega) (by omega)
    rw [hde]
    split_ifs
    · rw [(writeReg0_endlimit cfg { s with reg := s.reg.set rn lv } lv).1]; exact hend
    · rw [(writeReg1_endlimit cfg { s with reg := s.reg.set rn lv } lv hdrs).1]; exact hend
    · exact hend
    · rw [(writeReg8_endlimit cfg { s with reg := s.reg.set rn lv } lv).1]; exact hend
    · exact hend
    · rw [(writeRegB_endlimit cfg { s with reg := s.reg.set rn lv } lv).1]; exact hend
    · exact hend
    · exact hend

theorem limitOK_writeCases (cfg : YM_DELTAT_CFG) (s : YM_DELTAT) (rn lv : Nat)
    (hdrs : s.DRAMportshift = 0)
    (hlim : s.limit = dLimit s.reg cfg.portshift) :
    (writeCases cfg { s with reg := s.reg.set rn lv } rn lv).1.limit =
      dLimit (s.reg.set rn lv) cfg.portshift := by
  unfold writeCases
  by_cases hCD : rn = 12 ∨ rn = 13
  · rw [if_neg (by omega), if_neg (by omega), if_neg (by omega), if_neg (by omega),
        if_neg (by omega), if_neg (by omega), if_neg (by omega), if_pos hCD]
    show dLimit (s.reg.set rn lv) (cfg.portshift - s.DRAMportshift) = _
    rw [hdrs, Nat.sub_zero]
  · have hde : dLimit (s.reg.set rn lv) cfg.portshift = dLimit s.reg cfg.portshift :=
      dLimit_set s.reg rn lv _ (by omega) (by omega)
    rw [hde]
    split_ifs
    · rw [(writeReg0_endlimit cfg { s with reg := s.reg.set rn lv } lv).2]; exact hlim
    · rw [(writeReg1_endlimit cfg { s with reg := s.reg.set rn lv } lv hdrs).2]; exact hlim
    · exact hlim
    · exact hlim
    · rw [(writeReg8_endlimit cfg { s with reg := s.reg.set rn lv } lv).2]; exact hlim
    · exact hlim
    · rw [(writeRegB_endlimit cfg { s with reg := s.reg.set rn lv } lv).2]; exact hlim
    · exact hlim

theorem end_est_writeCases (cfg : YM_DELTAT_CFG) (s : YM_DELTAT) (rn lv : Nat)
    (hdrs : s.DRAMportshift = 0) (h45 : rn = 4 ∨ rn = 5) :
    (writeCases cfg { s with reg := s.reg.set rn lv } rn lv).1.end_ =
      dEnd (s.reg.set rn lv) cfg.portshift := by
  unfold writeCases
  rw [if_neg (by omega), if_neg (by omega), if_neg (by omega), if_pos h45]
  show dEnd (s.reg.set rn lv) (cfg.portshift - s.DRAMportshift) = _
  rw [hdrs, Nat.sub_zero]

theorem limit_est_writeCases (cfg : YM_DELTAT_CFG) (s : YM_DELTAT) (rn lv : Nat)
    (hdrs : s.DRAMportshift = 0) (hCD : rn = 12 ∨ rn = 13) :
    (writeCases cfg { s with reg := s.reg.set rn lv } rn lv).1.limit =
      dLimit (s.reg.set rn lv) cfg.portshift := by
  unfold writeCases
  rw [if_neg (by omega), if_neg (by omega), if_neg (by omega), if_neg (by omega),
      if_neg (by omega), if_neg (by omega), if_neg (by omega), if_pos hCD]
  show dLimit (s.reg.set rn lv) (cfg.portshift - s.DRAMportshift) = _
  rw [hdrs, Nat.sub_zero]

theorem writeFacts (cfg : YM_DELTAT_CFG) (s : YM_DELTAT) (r v : Int) (s' : YM_DELTAT)
    (evs : List Event) (h : derivedOK cfg s)
    (hw : ADPCMB_write cfg s r v = some (s', evs)) :
    derivedOK cfg s' ∧
    (s.end_ = dEnd s.reg cfg.portshift → s'.end_ = dEnd s'.reg cfg.portshift) ∧
    (s.limit = dLimit s.reg cfg.portshift → s'.limit = dLimit s'.reg cfg.portshift) ∧
    ((r = 4 ∨ r = 5) → s'.end_ = dEnd s'.reg cfg.portshift) ∧
    ((r = 12 ∨ r = 13) → s'.limit = dLimit s'.reg cfg.portshift) := by
  unfold ADPCMB_write at hw
  by_cases h16 : 16 ≤ r
  · rw [if_pos h16] at hw
    injection hw with hw
    injection hw with hx _
    subst hx
    exact ⟨h, id, id, by omega, by omega⟩
  by_cases hneg : r < 0
  · rw [if_neg h16, if_pos hneg] at hw; cases hw
  rw [if_neg h16, if_neg hneg] at hw
  injection hw with hw
  have hfst := congrArg Prod.fst hw
  simp only at hfst
  rw [← hfst]
  have hreg := writeCases_reg cfg { s with reg := s.reg.set r.toNat (lowByte v) }
    r.toNat (lowByte v)
  refine ⟨derivedOK_writeCases cfg s r.toNat (lowByte v) (lowByte_lt v) h, ?_, ?_, ?_, ?_⟩
  · intro he
    rw [hreg]
    exact endOK_writeCases cfg s r.toNat (lowByte v) h.2.2.1 he
  · intro hl
    rw [hreg]
    exact limitOK_writeCases cfg s r.toNat (lowByte v) h.2.2.1 hl
  · intro h45
    rw [hreg]
    exact end_est_writeCases cfg s r.toNat (lowByte v) h.2.2.1 (by omega)
  · intro hCD
    rw [hreg]
    exact limit_est_writeCases cfg s r.toNat (lowByte v) h.2.2.1 (by omega)

theorem runWrites_facts (cfg : YM_DELTAT_CFG) :
    ∀ (l : List (Int × Int)) (s S : YM_DELTAT),
      derivedOK cfg s → runWrites cfg s l = some S →
      derivedOK cfg S ∧
      (s.end_ = dEnd s.reg cfg.portshift → S.end_ = dEnd S.reg cfg.portshift) ∧
      (s.limit = dLimit s.reg cfg.portshift → S.limit = dLimit S.reg cfg.portshift) ∧
      (l.any (fun p => p.1 == 4 || p.1 == 5) = true → S.end_ = dEnd S.reg cfg.portshift) ∧
      (l.any (fun p => p.1 == 12 || p.1 == 13) = true →
        S.limit = dLimit S.reg cfg.portshift) := by
  intro l
  induction l with
  | nil =>
    intro s S h hr
    rw [runWrites] at hr
    injection hr with hr
    subst hr
    exact ⟨h, id, id, by simp, by simp⟩
  | cons p rest ih =>
    intro s S h hr
    rw [runWrites] at hr
    cases hw : (ADPCMB_write cfg s p.1 p.2) with
    | none => rw [hw] at hr; cases hr
    | some q =>
      obtain ⟨s1, e1⟩ := q
      rw [hw] at hr
      obtain ⟨hd1, hel, hll, he45, hlCD⟩ := writeFacts cfg s p.1 p.2 s1 e1 h hw
      obtain ⟨hd2, hel2, hll2, he452, hlCD2⟩ := ih s1 S hd1 hr
      refine ⟨hd2, fun he => hel2 (hel he), fun hl => hll2 (hll hl), ?_, ?_⟩
      · intro hany
        rw [List.any_cons] at hany
        rcases Bool.or_eq_true_iff.mp hany with hh | ht
        · refine hel2 (he45 ?_)
          rcases Bool.or_eq_true_iff.mp hh with h4 | h5
          · exact Or.inl (by exact_mod_cast eq_of_beq h4)
          · exact Or.inr (by exact_mod_cast eq_of_beq h5)
        · exact he452 ht
      · intro hany
        rw [List.any_cons] at hany
        rcases Bool.or_eq_true_iff.mp hany with hh | ht
        · refine hll2 (hlCD ?_)
          rcases Bool.or_eq_true_iff.mp hh with h4 | h5
          · exact Or.inl (by exact_mod_cast eq_of_beq h4)
          · exact Or.inr (by exact_mod_cast eq_of_beq h5)
        · exact hlCD2 ht

theorem postloadReplay_runWrites (cfg : YM_DELTAT_CFG) (regs : List Nat) :
    ∀ (k idx : Nat) (s : YM_DELTAT),
      (postloadReplay cfg regs k idx s).map (fun p => p.1) =
        runWrites cfg s (replayList regs idx k) := by
  intro k
  induction k with
  | zero => intro idx s; rfl
  | succ n ih =>
    intro idx s
    have hcons : replayList regs idx (n + 1) =
        (Int.ofNat idx, Int.ofNat (regs.getD idx 0 % 256)) :: replayList regs (idx + 1) n := rfl
    rw [hcons, runWrites, postloadReplay]
    cases hw : (ADPCMB_write cfg s (Int.ofNat idx) (Int.ofNat (regs.getD idx 0 % 256))) with
    | none => simp [hw]
    | some q =>
      obtain ⟨s1, e1⟩ := q
      cases hrr : (postloadReplay cfg regs n (idx + 1) s1) with
      | none =>
        have hh := ih (idx + 1) s1
        rw [hrr] at hh
        simp only [hw, hrr]
        simpa using hh
      | some q2 =>
        obtain ⟨s2, e2⟩ := q2
        have hh := ih (idx + 1) s1
        rw [hrr] at hh
        simp only [hw, hrr]
        simpa using hh

theorem lowByte_ofNat_mod (x : Nat) : lowByte ((x % 256 : Nat) : Int) = x % 256 := by
  unfold lowByte
  show ((((x % 256 : Nat) : Int)) % (256 : Int)).toNat = x % 256
  norm_cast
  exact Nat.mod_mod_of_dvd x (dvd_refl 256)

theorem write_reg_eq (cfg : YM_DELTAT_CFG) (s : YM_DELTAT) (r v : Int) (s' : YM_DELTAT)
    (evs : List Event) (h0 : 0 ≤ r) (h16 : ¬ 16 ≤ r)
    (hw : ADPCMB_write cfg s r v = some (s', evs)) :
    s'.reg = s.reg.set r.toNat (lowByte v) := by
  unfold ADPCMB_write at hw
  rw [if_neg h16, if_neg (by omega)] at hw
  injection hw with hw
  have hfst := congrArg Prod.fst hw
  simp only at hfst
  rw [← hfst, writeCases_reg]

theorem postloadReplay_reg (cfg : YM_DELTAT_CFG) (regs : List Nat) :
    ∀ (k idx : Nat) (s s' : YM_DELTAT) (evs : List Event),
      postloadReplay cfg regs k idx s = some (s', evs) → idx + k ≤ 16 →
      s.reg.length = 16 →
      s'.reg.length = 16 ∧
      (∀ j, j < idx → s'.reg.getD j 0 = s.reg.getD j 0) ∧
      (∀ j, idx ≤ j → j < idx + k → s'.reg.getD j 0 = regs.getD j 0 % 256) := by
  intro k
  induction k with
  | zero =>
    intro idx s s' evs h hle hlen
    rw [postloadReplay] at h
    injection h with h
    injection h with hx _
    subst hx
    exact ⟨hlen, fun j _ => rfl, fun j hj1 hj2 => by omega⟩
  | succ n ih =>
    intro idx s s' evs h hle hlen
    rw [postloadReplay] at h
    cases hw : (ADPCMB_write cfg s (idx : Int) ((regs.getD idx 0 % 256 : Nat) : Int)) with
    | none => rw [hw] at h; cases h
    | some q =>
      obtain ⟨s1, e1⟩ := q
      rw [hw] at h
      simp only at h
      have hr1 : s1.reg = s.reg.set idx (regs.getD idx 0 % 256) := by
        have := write_reg_eq cfg s (idx : Int) ((regs.getD idx 0 % 256 : Nat) : Int) s1 e1
          (by omega) (by omega) hw
        rw [this, lowByte_ofNat_mod]
        simp
      have hlen1 : s1.reg.length = 16 := by rw [hr1, List.length_set]; exact hlen
      cases hrr : (postloadReplay cfg regs n (idx + 1) s1) with
      | none => rw [hrr] at h; cases h
      | some q2 =>
        obtain ⟨s2, e2⟩ := q2
        rw [hrr] at h
        injection h with h
        injection h with hx _
        subst hx
        obtain ⟨hL, hlo, hhi⟩ := ih (idx + 1) s1 s2 e2 hrr (by omega) hlen1
        refine ⟨hL, ?_, ?_⟩
        · intro j hj
          rw [hlo j (by omega), hr1, getD_set_ne s.reg idx j _ (by omega)]
        · intro j hj1 hj2
          by_cases hje : j = idx
          · subst hje
            rw [hlo j (by omega), hr1, getD_set_self s.reg j _ (by omega)]
          · exact hhi j (by omega) (by omega)

theorem postloadReplay_isSome (cfg : YM_DELTAT_CFG) (regs : List Nat) :
    ∀ (k idx : Nat) (s : YM_DELTAT), idx + k ≤ 16 →
      ∃ s' evs, postloadReplay cfg regs k idx s = some (s', evs) := by
  intro k
  induction k with
  | zero => intro idx s _; exact ⟨s, [], rfl⟩
  | succ n ih =>
    intro idx s hle
    rw [postloadReplay]
    cases hw : (ADPCMB_write cfg s (idx : Int) ((regs.getD idx 0 % 256 : Nat) : Int)) with
    | none =>
      exfalso
      unfold ADPCMB_write at hw
      rw [if_neg (show ¬ (16 : Int) ≤ (idx : Int) by omega),
          if_neg (show ¬ ((idx : Int) < 0) by omega)] at hw
      cases hw
    | some q =>
      obtain ⟨s1, e1⟩ := q
      obtain ⟨s', evs, hr⟩ := ih (idx + 1) s1 (by omega)
      refine ⟨s', e1 ++ evs, ?_⟩
      show (match postloadReplay cfg regs n (idx + 1) s1 with
            | none => none
            | some (s2, e2) => some (s2, e1 ++ e2)) = some (s', e1 ++ evs)
      rw [hr]

theorem derivedReg_eq (l1 l2 : List Nat) (sh : Nat)
    (h : ∀ j, 1 ≤ j → j < 16 → l1.getD j 0 = l2.getD j 0) :
    dStart l1 sh = dStart l2 sh ∧ dEnd l1 sh = dEnd l2 sh ∧
    dLimit l1 sh = dLimit l2 sh ∧ dDelta l1 = dDelta l2 ∧
    l1.getD 11 0 = l2.getD 11 0 ∧ l1.getD 1 0 = l2.getD 1 0 := by
  refine ⟨?_, ?_, ?_, ?_, h 11 (by omega) (by omega), h 1 (by omega) (by omega)⟩
  · unfold dStart
    rw [h 3 (by omega) (by omega), h 2 (by omega) (by omega)]
  · unfold dEnd
    rw [h 5 (by omega) (by omega), h 4 (by omega) (by omega)]
  · unfold dLimit
    rw [h 13 (by omega) (by omega), h 12 (by omega) (by omega)]
  · unfold dDelta
    rw [h 10 (by omega) (by omega), h 9 (by omega) (by omega)]

/-- C4 (amended): for a write sequence from reset that programmed the end
address (a write to register 4 or 5) and the limit address (a write to
register 12 or 13), replaying the resulting raw register image through
`ADPCMB_postload` on a freshly reset unit reproduces every register-derived
field: start, end and limit addresses, DELTA-N rate and derived step,
output volume, and the mode bits (`control2` and the pan index). -/
theorem c4_amended (cfg : YM_DELTAT_CFG) (m : Nat → Nat) (ops : List (Int × Int))
    (S : YM_DELTAT)
    (hm : cfg.read_byte = some m) (hz : cfg.stepOf 0 = 0)
    (hr : runWrites cfg (resetUnit cfg 0) ops = some S)
    (h45 : ops.any (fun p => p.1 == 4 || p.1 == 5) = true)
    (hCD : ops.any (fun p => p.1 == 12 || p.1 == 13) = true) :
    ∃ T evs, ADPCMB_postload cfg (resetUnit cfg 0) S.reg = some (T, evs) ∧
      T.start = S.start ∧ T.end_ = S.end_ ∧ T.limit = S.limit ∧
      T.delta = S.delta ∧ T.step = S.step ∧ T.volume = S.volume ∧
      T.control2 = S.control2 ∧ T.panIdx = S.panIdx := by
  obtain ⟨hderS, hkeepE, hkeepL, he45S, hlCDS⟩ :=
    runWrites_facts cfg ops (resetUnit cfg 0) S (derivedOK_reset cfg hz) hr
  have hendS := he45S h45
  have hlimS := hlCDS hCD
  obtain ⟨T1, evs1, hpr⟩ := postloadReplay_isSome cfg S.reg 15 1
    ({ resetUnit cfg 0 with volume := 0 } : YM_DELTAT) (by omega)
  have hrw : runWrites cfg ({ resetUnit cfg 0 with volume := 0 } : YM_DELTAT)
      (replayList S.reg 1 15) = some T1 := by
    have hbr := postloadReplay_runWrites cfg S.reg 15 1
      ({ resetUnit cfg 0 with volume := 0 } : YM_DELTAT)
    rw [hpr] at hbr
    exact hbr.symm
  have ha45 : (replayList S.reg 1 15).any (fun p => p.1 == 4 || p.1 == 5) = true := rfl
  have haCD : (replayList S.reg 1 15).any (fun p => p.1 == 12 || p.1 == 13) = true := rfl
  obtain ⟨hderT1, _, _, he45T, hlCDT⟩ := runWrites_facts cfg (replayList S.reg 1 15)
    ({ resetUnit cfg 0 with volume := 0 } : YM_DELTAT) T1 (derivedOK_reset cfg hz) hrw
  have hendT1 := he45T ha45
  have hlimT1 := hlCDT haCD
  obtain ⟨hlenT1, hlo, hhi⟩ := postloadReplay_reg cfg S.reg 15 1
    ({ resetUnit cfg 0 with volume := 0 } : YM_DELTAT) T1 evs1 hpr (by omega) rfl
  obtain ⟨hlenS, hboundS, _, hstartS, hdeltaS, hstepS, hvolS, hc2S, hpanS⟩ := hderS
  obtain ⟨_, _, _, hstartT, hdeltaT, hstepT, hvolT, hc2T, hpanT⟩ := hderT1
  have hj : ∀ j, 1 ≤ j → j < 16 → T1.reg.getD j 0 = S.reg.getD j 0 := by
    intro j h1 h2
    rw [hhi j h1 (by omega), Nat.mod_eq_of_lt (hboundS j)]
  obtain ⟨hdS, hdE, hdL, hdD, hd11, hd1⟩ := derivedReg_eq T1.reg S.reg cfg.portshift hj
  refine ⟨{ T1 with reg := T1.reg.set 0 (S.reg.getD 0 0 % 256),
                    now_data := mem8 m (T1.now_addr >>> 1) }, evs1,
          ?_, ?_, ?_, ?_, ?_, ?_, ?_, ?_, ?_⟩
  · rw [ADPCMB_postload, hpr, hm]
  · show T1.start = S.start
    rw [hstartT, hstartS, hdS]
  · show T1.end_ = S.end_
    rw [hendT1, hendS, hdE]
  · show T1.limit = S.limit
    rw [hlimT1, hlimS, hdL]
  · show T1.delta = S.delta
    rw [hdeltaT, hdeltaS, hdD]
  · show T1.step = S.step
    rw [hstepT, hstepS, hdeltaT, hdeltaS, hdD]
  · show T1.volume = S.volume
    rw [hvolT, hvolS, hd11]
  · show T1.control2 = S.control2
    rw [hc2T, hc2S, hd1]
  · show T1.panIdx = S.panIdx
    rw [hpanT, hpanS, hd1]

/-- Witness for C4 (amended) at a concrete input: the host configuration
with `portshift = 8`, the write sequence `[(4, 1), (12, 2)]`. -/
theorem c4_witness :
    ∃ S, runWrites hostCfg (resetUnit hostCfg 0) [((4 : Int), (1 : Int)), ((12 : Int), (2 : Int))] = some S ∧
      ∃ T evs, ADPCMB_postload hostCfg (resetUnit hostCfg 0) S.reg = some (T, evs) ∧
        T.start = S.start ∧ T.end_ = S.end_ ∧ T.limit = S.limit ∧
        T.delta = S.delta ∧ T.step = S.step ∧ T.volume = S.volume ∧
        T.control2 = S.control2 ∧ T.panIdx = S.panIdx := by
  match hEq : runWrites hostCfg (resetUnit hostCfg 0) [((4 : Int), (1 : Int)), ((12 : Int), (2 : Int))] with
  | none => exact absurd hEq (by decide)
  | some S =>
    exact ⟨S, rfl,
      c4_amended hostCfg (fun a => a % 251) [((4 : Int), (1 : Int)), ((12 : Int), (2 : Int))] S
        rfl rfl hEq (by decide) (by decide)⟩

/-- C4 as stated is too strong: after the empty write sequence the unit is
in the reset state, where `end_ = 0` and `limit = 0xFFFFFFFF` are not
derived from the (all-zero) register image; replaying that image through
`ADPCMB_postload` yields `end_ = 255` and `limit = 0` instead. -/
theorem c4_counterexample :
    runWrites hostCfg (resetUnit hostCfg 0) [] = some (resetUnit hostCfg 0) ∧
    (ADPCMB_postload hostCfg (resetUnit hostCfg 0) (resetUnit hostCfg 0).reg).map
        (fun p => (p.1.end_, p.1.limit)) = some (255, 0) ∧
    (resetUnit hostCfg 0).end_ = 0 ∧ (resetUnit hostCfg 0).limit = 4294967295 := by
  refine ⟨rfl, ?_, rfl, rfl⟩
  decide
